import Mathlib

/-!
Verification of the remote directory acquisition engine of BunchaTools
(`src/src-tauri/src/lib.rs`): the GitHub folder downloader consisting of
`list_github_contents_recursive`, `download_files_parallel`,
`download_via_zipball` and the strategy selector `download_github_folder`.

The Rust code is shallowly embedded: every network response, filesystem
outcome and clock reading is an explicit input (an "environment"), the
shared cancellation flag is a schedule of poll values, and the
`buffer_unordered(8)` fetcher is serialised (files are processed in list
order; the atomic counters make the emitted percentages a function of the
running success count in either case).  Machine integers (`u32`, `u64`)
are modelled as `Nat`: none of the counters involved can overflow for any
realistic input, and no wrapping arithmetic occurs in the source.
Floating-point percentage computations (`as u32` truncations of `f64`
products) are modelled by exact rational floor, i.e. `Nat` division;
display rounding inside human-readable messages is modelled by truncation.
Rust `str` operations are modelled on the character list `String.data` so
that every definition evaluates by kernel reduction.
-/

/-! ## Rust string primitives -/

/-- Rust `str::starts_with(pre)`. -/
def strStarts (s pre : String) : Bool := pre.data.isPrefixOf s.data

/-- Rust `str::ends_with(suf)`. -/
def strEnds (s suf : String) : Bool := suf.data.isSuffixOf s.data

/-- Rust `str::strip_prefix(pre)`: `Some` of the remainder when `s` starts
with `pre`, `None` otherwise. -/
def stripPref (s pre : String) : Option String :=
  if pre.data.isPrefixOf s.data then some ⟨s.data.drop pre.data.length⟩ else none

/-- Rust `str::trim_start_matches('/')`: remove every leading `'/'`. -/
def trimStartSlashes (s : String) : String := ⟨s.data.dropWhile (· == '/')⟩

/-- Rust `str::split(c)` on a character list: splits at every occurrence of
`c`, yielding at least one (possibly empty) piece. -/
def splitChar (c : Char) : List Char → List (List Char)
  | [] => [[]]
  | x :: xs =>
    if x = c then [] :: splitChar c xs
    else
      match splitChar c xs with
      | [] => [[x]]
      | h :: t => (x :: h) :: t

/-- Rust `s.split('/').last().unwrap_or(&s)` (the `unwrap_or` is dead:
`split` always yields at least one piece). -/
def lastSegment (s : String) : String := ⟨(splitChar '/' s.data).getLastD s.data⟩

/-- Rust `s.split('/').next().unwrap_or("")`. -/
def firstSegment (s : String) : String := ⟨(splitChar '/' s.data).headD []⟩

/-- Rust `str::contains(pat)`: substring containment. -/
def strContains (s pat : String) : Bool := decide (pat.data <:+: s.data)

/-- The accumulating digit loop of Rust's integer `from_str`. -/
def parseDigits : List Char → Nat → Option Nat
  | [], acc => some acc
  | c :: cs, acc =>
    if c.isDigit then parseDigits cs (acc * 10 + (c.toNat - 48)) else none

/-- Rust `u32::from_str`: optional leading `'+'`, then decimal digits,
rejecting the empty digit string and values `≥ 2^32`. -/
def parseU32 (s : String) : Option Nat :=
  let t := if strStarts s "+" then s.data.drop 1 else s.data
  if t.isEmpty then none
  else
    match parseDigits t 0 with
    | some n => if n < 4294967296 then some n else none
    | none => none

/-- `PathBuf::join` with a relative right-hand side. -/
def pathJoin (a b : String) : String := a ++ "/" ++ b

deriving instance DecidableEq for Except

/-! ## Data model (structs from `src/src-tauri/src/lib.rs`) -/

structure GitHubUrlInfo where
  owner : String
  repo : String
  branch : String
  path : String
deriving DecidableEq, Repr

structure GitDownloadOptions where
  extract_files : Bool
  flatten_structure : Bool
  create_subfolder : Bool
deriving DecidableEq, Repr

structure GitDownloadProgress where
  stage : String
  percent : Nat
  message : String
  total_files : Option Nat
  processed_files : Option Nat
deriving DecidableEq, Repr

structure GitDownloadResult where
  success : Bool
  files_count : Nat
  total_size : Nat
  output_path : String
deriving DecidableEq, Repr

structure FileToDownload where
  download_url : String
  relative_path : String
  size : Nat
deriving DecidableEq, Repr

/-! ## Tree Lister (`list_github_contents_recursive`)

The GitHub Contents API is modelled as the tree of responses the server
returns: a directory item carries the response to the recursive request
made for its `path`.  A response is a network failure, or an HTTP status
with the `X-RateLimit-Remaining` header (as received; `None` when absent
or not convertible by `to_str`) and a body that either fails to parse as
`Vec<GitHubContentItem>` or yields items.  An item is tagged by its
`type` field: `"file"` (with optional `size` and `download_url`),
`"dir"`, or anything else. -/

mutual
inductive GhListing where
  | netErr (msg : String)
  | resp (status : Nat) (remaining : Option String) (body : GhBody)

inductive GhBody where
  | parseErr (msg : String)
  | items (its : GhItems)

inductive GhItems where
  | nil
  | cons (head : GhItem) (tail : GhItems)

inductive GhItem where
  | fileIt (itemPath : String) (size : Option Nat) (url : Option String)
  | dirIt (itemPath : String) (sub : GhListing)
  | otherIt (itemPath ty : String)
end

def rateLimitMsg : String :=
  "GitHub API rate limit exceeded (60 requests/hour for unauthenticated). Please try again later."

def accessDeniedMsg : String := "Access denied. This may be a private repository."

mutual
/-- `list_github_contents_recursive`: classify the response for `reqPath`,
then fold over the items, accumulating `FileToDownload`s (the `&mut Vec`
is threaded as `files`). -/
def list_github_contents_recursive (l : GhListing) (reqPath : String)
    (files : List FileToDownload) : Except String (List FileToDownload) :=
  match l with
  | .netErr m => .error ("Failed to list contents: " ++ m)
  | .resp status remaining body =>
    if status = 403 then
      if remaining.bind parseU32 = some 0 then .error rateLimitMsg
      else .error accessDeniedMsg
    else if status = 404 then
      .error ("Path '" ++ reqPath ++ "' not found in repository")
    else if ¬ (200 ≤ status ∧ status ≤ 299) then
      .error ("GitHub API error: " ++ toString status)
    else
      match body with
      | .parseErr m => .error ("Failed to parse response: " ++ m)
      | .items its => listContentsItems its files

/-- The `for item in contents` loop of `list_github_contents_recursive`. -/
def listContentsItems (its : GhItems) (files : List FileToDownload) :
    Except String (List FileToDownload) :=
  match its with
  | .nil => .ok files
  | .cons i rest =>
    match i with
    | .fileIt p sz url =>
      match url with
      | some u => listContentsItems rest (files ++ [⟨u, p, sz.getD 0⟩])
      | none => listContentsItems rest files
    | .dirIt p sub =>
      match list_github_contents_recursive sub p files with
      | .ok files' => listContentsItems rest files'
      | .error e => .error e
    | .otherIt _ _ => listContentsItems rest files
end

/-! ## Bounded Parallel Fetcher (`download_files_parallel`)

The fetcher fans out up to 8 concurrent unit tasks over the file list;
each unit checks the cancellation flag, computes its output path,
downloads and writes one file, then bumps the shared atomic counters and
emits a progress event for the count it observed.  The embedding
serialises the units in list order: the running success count then plays
the role of the atomic counter, and the percent of every emitted event
is the same function of that count as in the source.  Each unit's
interaction with the outside world is a `FileEnv`: the outcome of
`create_dir_all`, of `client.get(url).send()` (a network error or an
HTTP status), of reading the body (a network error or the byte length),
and of `fs::write`. -/

structure FileEnv where
  dirErr : Option String
  sendResult : Except String Nat
  bodyResult : Except String Nat
  writeErr : Option String

/-- The `relative_path` actually used by a fetch unit: the `base_path`
prefix is stripped and leading slashes trimmed, falling back to the full
path when the strip fails. -/
def computeRelativePath (basePath rp : String) : String :=
  if basePath = "" then rp
  else
    match stripPref rp basePath with
    | some p => trimStartSlashes p
    | none => rp

/-- The output file path of a fetch unit: under `flatten_structure` only
the final path segment is kept. -/
def fetchOutputPath (flatten : Bool) (outputDir rel : String) : String :=
  if flatten then pathJoin outputDir (lastSegment rel)
  else pathJoin outputDir rel

/-- One fetch unit of `download_files_parallel`: cancellation check, path
computation, directory creation, download, body read, write.  Returns the
written byte count and destination path, or the unit's error string. -/
def processFile (cancelled : Bool) (env : FileEnv) (f : FileToDownload)
    (basePath outputDir : String) (flatten : Bool) : Except String (Nat × String) :=
  if cancelled then .error "Download cancelled"
  else
    let rel := computeRelativePath basePath f.relative_path
    let outPath := fetchOutputPath flatten outputDir rel
    match env.dirErr with
    | some e => .error ("Failed to create directory: " ++ e)
    | none =>
      match env.sendResult with
      | .error e => .error ("Failed to download " ++ rel ++ ": " ++ e)
      | .ok status =>
        if ¬ (200 ≤ status ∧ status ≤ 299) then
          .error ("Failed to download " ++ rel ++ ": HTTP " ++ toString status)
        else
          match env.bodyResult with
          | .error e => .error ("Failed to read " ++ rel ++ ": " ++ e)
          | .ok len =>
            match env.writeErr with
            | some e => .error ("Failed to write " ++ rel ++ ": " ++ e)
            | none => .ok (len, outPath)

/-- The percent emitted after the `count`-th completed file out of
`total`: `10 + (count / total) * 85`, truncated, capped at 95. -/
def fetchPercent (total count : Nat) : Nat := min (10 + 85 * count / total) 95

structure FetchBatch where
  count : Nat
  size : Nat
  events : List GitDownloadProgress
  results : List (Except String (Nat × String))
deriving Repr

/-- The serialised unit loop of `download_files_parallel`: `read k` is the
cancellation flag value observed by the `k`-th poll, `fenv k` the world's
answers to the `k`-th unit.  State: poll index, success count, byte
total. -/
def runFetchUnits (read : Nat → Bool) (fenv : Nat → FileEnv)
    (basePath outputDir : String) (flatten : Bool) (total : Nat) :
    Nat → Nat → Nat → List FileToDownload → FetchBatch
  | _, count, size, [] => ⟨count, size, [], []⟩
  | idx, count, size, f :: fs =>
    match processFile (read idx) (fenv idx) f basePath outputDir flatten with
    | .ok (len, outPath) =>
      let count' := count + 1
      let ev : GitDownloadProgress :=
        { stage := "downloading", percent := fetchPercent total count',
          message := "Downloaded " ++ toString count' ++ " of " ++ toString total ++ " files",
          total_files := some total, processed_files := some count' }
      let b := runFetchUnits read fenv basePath outputDir flatten total (idx + 1) count' (size + len) fs
      ⟨b.count, b.size, ev :: b.events, .ok (len, outPath) :: b.results⟩
    | .error e =>
      let b := runFetchUnits read fenv basePath outputDir flatten total (idx + 1) count size fs
      ⟨b.count, b.size, b.events, .error e :: b.results⟩

/-- The post-collection scan of `download_files_parallel`: a result equal
to the cancellation sentinel aborts the batch. -/
def isCancelErr : Except String (Nat × String) → Bool
  | .error e => e == "Download cancelled"
  | .ok _ => false

/-- `download_files_parallel`: run all units, then return the cancellation
error if any unit was cancelled, else the counter values.  Also exposes
the batch record (events, per-unit results) for the specifications. -/
def download_files_parallel (read : Nat → Bool) (fenv : Nat → FileEnv)
    (files : List FileToDownload) (basePath outputDir : String) (flatten : Bool) :
    Except String (Nat × Nat) × FetchBatch :=
  let b := runFetchUnits read fenv basePath outputDir flatten files.length 0 0 0 files
  (if b.results.any isCancelErr then .error "Download cancelled" else .ok (b.count, b.size), b)

/-! ## Archive Acquirer and Extractor (`download_via_zipball`)

The archive download streams chunks to a temp file, emitting a throttled
heuristic progress event; the extractor determines the synthetic root
folder from entry 0, filters entries by prefix, counts matches, then
extracts.  The environment supplies the archive response status, the
chunk stream (each chunk tagged with the millisecond wall-clock instant
at which its loop iteration runs), every filesystem outcome, and the zip
entry table (`by_index` reads are modelled as in-bounds table lookups). -/

structure ChunkInfo where
  time : Nat
  data : Except String Nat
  writeErr : Option String

structure ZipEntry where
  name : String
  size : Nat
deriving DecidableEq, Repr

/-- `zip::read::ZipFile::is_dir`: the entry name ends with `'/'`. -/
def zipIsDir (e : ZipEntry) : Bool := strEnds e.name "/"

inductive ExtractFsErr where
  | dirErr (msg : String)
  | createErr (msg : String)
  | copyErr (msg : String)

/-- The error string produced at each of the three filesystem sites of the
extraction loop. -/
def extractFsMsg : ExtractFsErr → String
  | .dirErr m => "Failed to create directory: " ++ m
  | .createErr m => "Failed to create file: " ++ m
  | .copyErr m => "Failed to write file: " ++ m

structure ZipEnv where
  sendResult : Except String Nat
  tempDirErr : Option String
  tempFileErr : Option String
  startTime : Nat
  chunks : List ChunkInfo
  openErr : Option String
  readErr : Option String
  entries : List ZipEntry
  extractFs : Nat → Option ExtractFsErr
  createOutErr : Option String

/-- One stream progress event together with the instant and byte counter
at which it was emitted. -/
structure StreamEv where
  time : Nat
  downloaded : Nat
  ev : GitDownloadProgress

/-- The heuristic percent of the streaming phase:
`(15.0 + (downloaded / 1e6).min(35.0)) as u32`, then `.min(50)`. -/
def streamPercent (downloaded : Nat) : Nat :=
  min (15 + min (downloaded / 1000000) 35) 50

/-- Truncated display of `downloaded` megabytes with one decimal, standing
in for Rust's rounded `{:.1}` formatting of `downloaded / 1e6`. -/
def mbDisplay (downloaded : Nat) : String :=
  toString (downloaded / 1000000) ++ "." ++ toString (downloaded % 1000000 / 100000)

structure StreamOut where
  polls : Nat
  downloaded : Nat
  events : List StreamEv
  err : Option String

/-- The `while let Some(chunk_result) = stream.next().await` loop of
`download_via_zipball`: per chunk, poll the cancellation flag, read the
chunk, write it, advance `downloaded`, and emit a throttled progress
event when more than 500 ms have elapsed since `lastUpdate`. -/
def streamChunks (read : Nat → Bool) :
    Nat → Nat → Nat → List ChunkInfo → StreamOut
  | p, downloaded, _, [] => ⟨p, downloaded, [], none⟩
  | p, downloaded, lastUpdate, c :: cs =>
    if read p then ⟨p + 1, downloaded, [], some "Download cancelled"⟩
    else
      match c.data with
      | .error e => ⟨p + 1, downloaded, [], some ("Download error: " ++ e)⟩
      | .ok len =>
        match c.writeErr with
        | some e => ⟨p + 1, downloaded, [], some ("Write error: " ++ e)⟩
        | none =>
          let d' := downloaded + len
          if c.time - lastUpdate > 500 then
            let ev : GitDownloadProgress :=
              { stage := "downloading", percent := streamPercent d',
                message := "Downloading... " ++ mbDisplay d' ++ " MB",
                total_files := none, processed_files := none }
            let o := streamChunks read (p + 1) d' c.time cs
            ⟨o.polls, o.downloaded, ⟨c.time, d', ev⟩ :: o.events, o.err⟩
          else
            let o := streamChunks read (p + 1) d' lastUpdate cs
            ⟨o.polls, o.downloaded, o.events, o.err⟩

/-- The percent of the `extracted`-th extracted file out of `matching`:
`60 + (extracted / matching.max(1)) * 35`, truncated, capped at 95. -/
def extractPercent (matching extracted : Nat) : Nat :=
  min (60 + 35 * extracted / max matching 1) 95

/-- The relative path of an archive entry after stripping the filter
prefix, falling back to the full entry name. -/
def extractRelativePath (filterPref entryName : String) : String :=
  (stripPref entryName filterPref).getD entryName

/-- The destination of an extracted entry: under `flatten_structure` only
the final path segment is kept. -/
def extractOutputPath (flatten : Bool) (finalOutput rel : String) : String :=
  if flatten then pathJoin finalOutput (lastSegment rel)
  else pathJoin finalOutput rel

structure ExtractOut where
  count : Nat
  size : Nat
  events : List GitDownloadProgress
  extracted : List (String × Nat)
  err : Option String

/-- The extraction loop of `download_via_zipball`: per entry index, poll
the cancellation flag, skip non-matching and directory entries, write the
entry, bump the counters and emit a progress event. -/
def extractEntries (read : Nat → Bool) (fsErr : Nat → Option ExtractFsErr)
    (filterPref finalOutput : String) (flatten : Bool) (matching : Nat) :
    Nat → Nat → Nat → Nat → List ZipEntry → ExtractOut
  | _, _, count, size, [] => ⟨count, size, [], [], none⟩
  | p, i, count, size, e :: es =>
    if read p then ⟨count, size, [], [], some "Download cancelled"⟩
    else if ¬ strStarts e.name filterPref then
      extractEntries read fsErr filterPref finalOutput flatten matching (p + 1) (i + 1) count size es
    else if zipIsDir e then
      extractEntries read fsErr filterPref finalOutput flatten matching (p + 1) (i + 1) count size es
    else
      let rel := extractRelativePath filterPref e.name
      let outPath := extractOutputPath flatten finalOutput rel
      match fsErr i with
      | some fe => ⟨count, size, [], [], some (extractFsMsg fe)⟩
      | none =>
        let size' := size + e.size
        let count' := count + 1
        let ev : GitDownloadProgress :=
          { stage := "extracting", percent := extractPercent matching count',
            message := "Extracting file " ++ toString count' ++ " of " ++ toString matching ++ "...",
            total_files := some matching, processed_files := some count' }
        let o := extractEntries read fsErr filterPref finalOutput flatten matching (p + 1) (i + 1) count' size' es
        ⟨o.count, o.size, ev :: o.events, (outPath, e.size) :: o.extracted, o.err⟩

structure ZipRun where
  events : List GitDownloadProgress
  polls : Nat
  streamDetail : List StreamEv
  extracted : List (String × Nat)
  result : Except String GitDownloadResult

/-- `download_via_zipball`, composed from the streaming and extraction
loops.  `p` is the number of cancellation polls performed before entry
(the strategy selector never polls, so callers pass 0). -/
def download_via_zipball (read : Nat → Bool) (p : Nat) (env : ZipEnv)
    (urlInfo : GitHubUrlInfo) (outputPath : String) (options : GitDownloadOptions) : ZipRun :=
  let ev10 : GitDownloadProgress :=
    { stage := "downloading", percent := 10,
      message := "Downloading repository archive...",
      total_files := none, processed_files := none }
  match env.sendResult with
  | .error e => ⟨[ev10], p, [], [], .error ("Failed to download: " ++ e)⟩
  | .ok status =>
    if ¬ (200 ≤ status ∧ status ≤ 299) then
      if status = 404 then ⟨[ev10], p, [], [], .error "Repository or branch not found"⟩
      else if status = 403 then
        ⟨[ev10], p, [], [], .error "GitHub rate limit exceeded. Please try again later."⟩
      else ⟨[ev10], p, [], [], .error ("GitHub API error: " ++ toString status)⟩
    else
      match env.tempDirErr with
      | some e => ⟨[ev10], p, [], [], .error ("Failed to create temp directory: " ++ e)⟩
      | none =>
        match env.tempFileErr with
        | some e => ⟨[ev10], p, [], [], .error ("Failed to create temp file: " ++ e)⟩
        | none =>
          let so := streamChunks read p 0 env.startTime env.chunks
          let streamEvs := so.events.map (·.ev)
          match so.err with
          | some e => ⟨ev10 :: streamEvs, so.polls, so.events, [], .error e⟩
          | none =>
            let ev50 : GitDownloadProgress :=
              { stage := "downloading", percent := 50,
                message := "Downloaded " ++ mbDisplay so.downloaded ++ " MB",
                total_files := none, processed_files := none }
            let ev55 : GitDownloadProgress :=
              { stage := "extracting", percent := 55, message := "Extracting files...",
                total_files := none, processed_files := none }
            let evHead := ev10 :: streamEvs ++ [ev50, ev55]
            match env.openErr with
            | some e => ⟨evHead, so.polls, so.events, [], .error ("Failed to open ZIP: " ++ e)⟩
            | none =>
              match env.readErr with
              | some e => ⟨evHead, so.polls, so.events, [], .error ("Failed to read ZIP: " ++ e)⟩
              | none =>
                match env.entries with
                | [] => ⟨evHead, so.polls, so.events, [], .error "Empty archive"⟩
                | e0 :: _ =>
                  let rootPref := firstSegment e0.name ++ "/"
                  let filterPref :=
                    if urlInfo.path = "" then rootPref
                    else rootPref ++ urlInfo.path ++ "/"
                  let folderName :=
                    if urlInfo.path = "" then urlInfo.repo
                    else lastSegment urlInfo.path
                  let finalOutput :=
                    if options.create_subfolder then pathJoin outputPath folderName
                    else outputPath
                  match env.createOutErr with
                  | some e =>
                    ⟨evHead, so.polls, so.events, [],
                      .error ("Failed to create output directory: " ++ e)⟩
                  | none =>
                    let matching :=
                      env.entries.countP (fun e => strStarts e.name filterPref && ! zipIsDir e)
                    if matching = 0 ∧ ¬ urlInfo.path = "" then
                      ⟨evHead, so.polls, so.events, [],
                        .error ("Folder '" ++ urlInfo.path ++ "' not found in repository")⟩
                    else
                      let ev60 : GitDownloadProgress :=
                        { stage := "extracting", percent := 60,
                          message := "Found " ++ toString matching ++ " files to extract...",
                          total_files := some matching, processed_files := some 0 }
                      let xo := extractEntries read env.extractFs filterPref finalOutput
                        options.flatten_structure matching so.polls 0 0 0 env.entries
                      match xo.err with
                      | some e =>
                        ⟨evHead ++ ev60 :: xo.events, so.polls + env.entries.length,
                          so.events, xo.extracted, .error e⟩
                      | none =>
                        let evC : GitDownloadProgress :=
                          { stage := "complete", percent := 100,
                            message := "Successfully downloaded " ++ toString xo.count ++ " files",
                            total_files := some matching, processed_files := some xo.count }
                        ⟨evHead ++ ev60 :: xo.events ++ [evC], so.polls + env.entries.length,
                          so.events, xo.extracted,
                          .ok ⟨true, xo.count, xo.size, finalOutput⟩⟩

/-! ## Strategy Selector (`download_github_folder`)

The selector resets the shared cancellation flag, emits the initial
event, and picks a strategy from the requested subpath: a non-empty
subpath tries the Tree Lister first and falls back to the archive on
failures whose message matches neither the rate-limit nor the
access-denied substring; an empty subpath goes straight to the archive.
The run's interaction with `cancel_git_download` is modelled by a
schedule: `cancelSchedule j = true` means the cancel command ran between
the run's `j-1`-th and `j`-th cancellation polls (`j = 0`: between the
flag reset and the first poll).  The flag a poll reads is then the
disjunction of the cancels so far — the flag only ever transitions to
`true` during a run. -/

structure RunEnv where
  listing : GhListing
  fileEnv : Nat → FileEnv
  listCreateOutErr : Option String
  zip : ZipEnv

structure RunOut where
  events : List GitDownloadProgress
  listingAttempted : Bool
  zipballAttempts : Nat
  result : Except String GitDownloadResult

/-- The body of `download_github_folder`, after the cancellation-flag
reset: `read k` is the flag value the `k`-th poll observes. -/
def downloadGithubFolderBody (env : RunEnv) (read : Nat → Bool)
    (urlInfo : GitHubUrlInfo) (outputPath : String) (options : GitDownloadOptions) : RunOut :=
  let ev0 : GitDownloadProgress :=
    { stage := "fetching", percent := 0, message := "Connecting to GitHub...",
      total_files := none, processed_files := none }
  if ¬ urlInfo.path = "" then
    let ev5 : GitDownloadProgress :=
      { stage := "listing", percent := 5, message := "Listing files in folder...",
        total_files := none, processed_files := none }
    match list_github_contents_recursive env.listing urlInfo.path [] with
    | .ok files =>
      if files.isEmpty then
        ⟨[ev0, ev5], true, 0,
          .error ("Folder '" ++ urlInfo.path ++ "' is empty or not found")⟩
      else
        let total := files.length
        let ev10 : GitDownloadProgress :=
          { stage := "downloading", percent := 10,
            message := "Found " ++ toString total ++ " files to download",
            total_files := some total, processed_files := some 0 }
        let finalOutput :=
          if options.create_subfolder then pathJoin outputPath (lastSegment urlInfo.path)
          else outputPath
        match env.listCreateOutErr with
        | some e =>
          ⟨[ev0, ev5, ev10], true, 0, .error ("Failed to create output directory: " ++ e)⟩
        | none =>
          let dfp := download_files_parallel read env.fileEnv files urlInfo.path
            finalOutput options.flatten_structure
          match dfp.1 with
          | .error e => ⟨[ev0, ev5, ev10] ++ dfp.2.events, true, 0, .error e⟩
          | .ok (filesCount, totalSize) =>
            let evC : GitDownloadProgress :=
              { stage := "complete", percent := 100,
                message := "Successfully downloaded " ++ toString filesCount ++ " files",
                total_files := some filesCount, processed_files := some filesCount }
            ⟨[ev0, ev5, ev10] ++ dfp.2.events ++ [evC], true, 0,
              .ok ⟨true, filesCount, totalSize, finalOutput⟩⟩
    | .error e =>
      if strContains e "rate limit" || strContains e "Access denied" then
        ⟨[ev0, ev5], true, 0, .error e⟩
      else
        let z := download_via_zipball read 0 env.zip urlInfo outputPath options
        ⟨[ev0, ev5] ++ z.events, true, 1, z.result⟩
  else
    let z := download_via_zipball read 0 env.zip urlInfo outputPath options
    ⟨ev0 :: z.events, false, 1, z.result⟩

/-- The flag value the `k`-th poll of a run observes, given the value the
flag is set to when the run starts and the schedule of cancel commands. -/
def flagAtPoll (startValue : Bool) (cancelSchedule : Nat → Bool) (k : Nat) : Bool :=
  startValue || decide (∃ j ≤ k, cancelSchedule j = true)

/-- `download_github_folder`: the first statement of the command resets
the shared `git_download_cancelled` flag to `false`, so the flag value
that was left over from before the run (`initialCancelled`) is discarded
and polls observe only cancels scheduled during the run. -/
def download_github_folder (env : RunEnv) (cancelSchedule : Nat → Bool)
    (initialCancelled : Bool) (urlInfo : GitHubUrlInfo) (outputPath : String)
    (options : GitDownloadOptions) : RunOut :=
  let _leftOver := initialCancelled
  downloadGithubFolderBody env (flagAtPoll false cancelSchedule) urlInfo outputPath options

/-! ## Helper lemmas -/

theorem stripPref_of_append (s t : String) :
    stripPref (s ++ t) s = some t := by
  unfold stripPref
  rw [if_pos]
  · rw [String.data_append, List.drop_left]
  · rw [List.isPrefixOf_iff_prefix, String.data_append]
    exact List.prefix_append s.data t.data

theorem dropWhile_slash_cons (l : List Char) (h : l.head? ≠ some '/') :
    List.dropWhile (· == '/') ('/' :: l) = l := by
  rw [List.dropWhile_cons]
  simp only [beq_self_eq_true, if_true]
  cases l with
  | nil => rfl
  | cons c cs =>
    rw [List.dropWhile_cons]
    have hc : (c == '/') = false := by
      cases hcc : c == '/'
      · rfl
      · exact absurd (congrArg some (eq_of_beq hcc)) (by simpa using h)
    rw [hc]
    simp

theorem trimStartSlashes_slash_cons (rest : String) (h : rest.data.head? ≠ some '/') :
    trimStartSlashes ("/" ++ rest) = rest := by
  obtain ⟨l⟩ := rest
  show String.mk ((("/" : String) ++ String.mk l).data.dropWhile (· == '/')) = String.mk l
  rw [String.data_append]
  exact congrArg String.mk (dropWhile_slash_cons l h)

theorem ne_target_of_prefixed (l : List Char) (m t : String)
    (hm : l <+: m.data) (ht : ¬ l <+: t.data) : m ≠ t := by
  intro h
  exact ht (h ▸ hm)

theorem prefixed_ne (a rest t : String) (h : ¬ a.data <+: t.data) : a ++ rest ≠ t := by
  refine ne_target_of_prefixed a.data _ _ ?_ h
  rw [String.data_append]
  exact List.prefix_append a.data rest.data

/-! ## C4: failure classification of a Tree Lister response -/

/-- C4.  For a listing response, HTTP 403 with an `X-RateLimit-Remaining`
header parsing to 0 yields the rate-limit error; HTTP 403 otherwise
yields the access-denied error; HTTP 404 yields the path-not-found
error; any other non-2xx status yields the generic API error carrying
the status. -/
theorem claim4_theorem (status : Nat) (remaining : Option String) (body : GhBody)
    (reqPath : String) (files : List FileToDownload) :
    (status = 403 → remaining.bind parseU32 = some 0 →
      list_github_contents_recursive (.resp status remaining body) reqPath files =
        .error rateLimitMsg) ∧
    (status = 403 → remaining.bind parseU32 ≠ some 0 →
      list_github_contents_recursive (.resp status remaining body) reqPath files =
        .error accessDeniedMsg) ∧
    (status = 404 →
      list_github_contents_recursive (.resp status remaining body) reqPath files =
        .error ("Path '" ++ reqPath ++ "' not found in repository")) ∧
    (¬ (200 ≤ status ∧ status ≤ 299) → status ≠ 403 → status ≠ 404 →
      list_github_contents_recursive (.resp status remaining body) reqPath files =
        .error ("GitHub API error: " ++ toString status)) := by
  refine ⟨?_, ?_, ?_, ?_⟩
  · intro h403 hrem
    rw [list_github_contents_recursive.eq_def]
    simp [h403, hrem]
  · intro h403 hrem
    rw [list_github_contents_recursive.eq_def]
    simp [h403, hrem]
  · intro h404
    rw [list_github_contents_recursive.eq_def]
    simp [h404]
  · intro hns h403 h404
    rw [list_github_contents_recursive.eq_def]
    simp [h403, h404, hns]

/-- Witness for C4: all four classification cases at concrete responses. -/
theorem claim4_witness :
    list_github_contents_recursive (.resp 403 (some "0") (.parseErr "")) "p" [] =
      .error rateLimitMsg ∧
    list_github_contents_recursive (.resp 403 none (.parseErr "")) "p" [] =
      .error accessDeniedMsg ∧
    list_github_contents_recursive (.resp 404 none (.parseErr "")) "p" [] =
      .error ("Path '" ++ "p" ++ "' not found in repository") ∧
    list_github_contents_recursive (.resp 500 none (.parseErr "")) "p" [] =
      .error ("GitHub API error: " ++ toString 500) := by
  refine ⟨?_, ?_, ?_, ?_⟩
  · exact (claim4_theorem 403 (some "0") (.parseErr "") "p" []).1 rfl (by decide)
  · exact (claim4_theorem 403 none (.parseErr "") "p" []).2.1 rfl (by decide)
  · exact (claim4_theorem 404 none (.parseErr "") "p" []).2.2.1 rfl
  · exact (claim4_theorem 500 none (.parseErr "") "p" []).2.2.2 (by decide) (by decide) (by decide)

/-! ## C1: paths stored by the Tree Lister versus paths relative to the subpath -/

/-- Modelled from the spec: a path "expressed relative to the originally
requested subpath" is the item's repository path with the subpath prefix
(and its separator) removed. -/
def specRelativeToSubpath (subpath p : String) : String :=
  (stripPref p (subpath ++ "/")).getD p

/-- C1 counterexample.  For the subpath `docs` and a listing containing the
file `docs/a.txt`, the Tree Lister stores `relative_path = "docs/a.txt"` —
the full repository path, still carrying the subpath prefix — not the
subpath-relative `"a.txt"`. -/
theorem claim1_counterexample :
    list_github_contents_recursive
        (.resp 200 none (.items (.cons (.fileIt "docs/a.txt" (some 3) (some "u")) .nil)))
        "docs" [] = .ok [⟨"u", "docs/a.txt", 3⟩] ∧
    specRelativeToSubpath "docs" "docs/a.txt" = "a.txt" ∧
    ("docs/a.txt" : String) ≠ "a.txt" := by decide

/-- C1 (amended).  FileDescriptors store repository-root-relative paths;
the subpath-relative form arises only downstream: for a file at
`subpath ++ "/" ++ rest`, the Fetcher's prefix strip yields exactly
`rest`, the same relative path the Archive Extractor computes for the
corresponding archive entry `rootPref ++ subpath ++ "/" ++ rest`, and
both strategies join it to their output directory identically — so
callers see structurally identical output paths regardless of which
strategy ran. -/
theorem claim1_theorem (subpath rest outputDir rootPref : String)
    (h1 : subpath ≠ "") (h2 : rest.data.head? ≠ some '/') :
    computeRelativePath subpath (subpath ++ "/" ++ rest) = rest ∧
    extractRelativePath (rootPref ++ subpath ++ "/") (rootPref ++ subpath ++ "/" ++ rest) = rest ∧
    (∀ flatten dir, fetchOutputPath flatten dir rest = extractOutputPath flatten dir rest) ∧
    fetchOutputPath false outputDir rest = pathJoin outputDir rest := by
  refine ⟨?_, ?_, ?_, ?_⟩
  · unfold computeRelativePath
    rw [if_neg h1, String.append_assoc, stripPref_of_append]
    exact trimStartSlashes_slash_cons rest h2
  · unfold extractRelativePath
    rw [stripPref_of_append]
    rfl
  · intro flatten dir
    cases flatten <;> rfl
  · rfl

/-- Witness for C1 at a concrete subpath and file. -/
theorem claim1_witness :
    ("docs" : String) ≠ "" ∧ ("a.txt" : String).data.head? ≠ some '/' ∧
    computeRelativePath "docs" ("docs" ++ "/" ++ "a.txt") = "a.txt" ∧
    extractRelativePath ("o-r-sha/" ++ "docs" ++ "/") ("o-r-sha/" ++ "docs" ++ "/" ++ "a.txt") =
      "a.txt" := by
  have h := claim1_theorem "docs" "a.txt" "/out" "o-r-sha/" (by decide) (by decide)
  exact ⟨by decide, by decide, h.1, h.2.1⟩

/-! ## C9: prefix-strip fallback in the Fetcher -/

/-- C9.  When a file's `relative_path` does not start with `base_path`,
the strip silently falls back to the full unmodified path, and (without
flattening) the unit writes the file under the output directory joined
with that full repository path instead of failing. -/
theorem claim9_theorem (f : FileToDownload) (basePath outputDir : String) (env : FileEnv)
    (status len : Nat)
    (h0 : basePath ≠ "")
    (h1 : ¬ basePath.data <+: f.relative_path.data)
    (hdir : env.dirErr = none) (hsend : env.sendResult = .ok status)
    (hst : 200 ≤ status ∧ status ≤ 299)
    (hbody : env.bodyResult = .ok len) (hwrite : env.writeErr = none) :
    computeRelativePath basePath f.relative_path = f.relative_path ∧
    processFile false env f basePath outputDir false =
      .ok (len, pathJoin outputDir f.relative_path) := by
  have hpre : ¬ basePath.data.isPrefixOf f.relative_path.data = true := by
    rw [List.isPrefixOf_iff_prefix]
    exact h1
  have hrel : computeRelativePath basePath f.relative_path = f.relative_path := by
    unfold computeRelativePath stripPref
    rw [if_neg h0, if_neg hpre]
  refine ⟨hrel, ?_⟩
  unfold processFile
  simp only [Bool.false_eq_true, if_false, hrel, hdir, hsend, hbody, hwrite]
  rw [if_neg (by simpa using hst)]
  rfl

/-- Witness for C9: a file outside the base path is written at the output
directory joined with its full repository path. -/
theorem claim9_witness :
    processFile false ⟨none, .ok 200, .ok 7, none⟩ ⟨"u", "other/b.txt", 7⟩ "docs" "/out" false =
      .ok (7, pathJoin "/out" "other/b.txt") := by
  have h := claim9_theorem ⟨"u", "other/b.txt", 7⟩ "docs" "/out" ⟨none, .ok 200, .ok 7, none⟩
    200 7 (by decide) (by decide) rfl rfl (by decide) rfl rfl
  exact h.2

/-! ## C5: per-file failure tolerance versus cancellation in the Fetcher -/

/-- Whether a unit result is a success. -/
def isOkR : Except String (Nat × String) → Bool
  | .ok _ => true
  | .error _ => false

/-- The byte counts of the successful unit results. -/
def okSizes : List (Except String (Nat × String)) → List Nat
  | [] => []
  | .ok (len, _) :: rs => len :: okSizes rs
  | .error _ :: rs => okSizes rs

theorem runFetchUnits_counters (read : Nat → Bool) (fenv : Nat → FileEnv)
    (basePath outputDir : String) (flatten : Bool) (total : Nat) :
    ∀ (fs : List FileToDownload) (idx count size : Nat),
      (runFetchUnits read fenv basePath outputDir flatten total idx count size fs).count =
        count + (runFetchUnits read fenv basePath outputDir flatten total idx count size fs).results.countP isOkR ∧
      (runFetchUnits read fenv basePath outputDir flatten total idx count size fs).size =
        size + (okSizes (runFetchUnits read fenv basePath outputDir flatten total idx count size fs).results).sum := by
  intro fs
  induction fs with
  | nil => intro idx count size; simp [runFetchUnits, okSizes]
  | cons f fs ih =>
    intro idx count size
    rw [runFetchUnits]
    cases hp : processFile (read idx) (fenv idx) f basePath outputDir flatten with
    | ok v =>
      obtain ⟨len, outPath⟩ := v
      have h := ih (idx + 1) (count + 1) (size + len)
      simp [List.countP_cons, isOkR, okSizes, h.1, h.2]
      try omega
    | error e =>
      have h := ih (idx + 1) count size
      simp only [List.countP_cons, isOkR, okSizes, h.1, h.2]
      simp

/-- C5.  A per-file failure never causes the batch to return an error:
when no unit result is the cancellation sentinel, the batch returns `Ok`
with exactly the count and summed byte sizes of the successful units
(failing files are skipped and excluded); a detected Cancelled unit is
the one failure propagated as the result of the whole batch. -/
theorem claim5_theorem (read : Nat → Bool) (fenv : Nat → FileEnv)
    (files : List FileToDownload) (basePath outputDir : String) (flatten : Bool) :
    ((∀ r ∈ (download_files_parallel read fenv files basePath outputDir flatten).2.results,
        isCancelErr r = false) →
      (download_files_parallel read fenv files basePath outputDir flatten).1 =
        .ok ((download_files_parallel read fenv files basePath outputDir flatten).2.results.countP isOkR,
          (okSizes (download_files_parallel read fenv files basePath outputDir flatten).2.results).sum)) ∧
    ((∃ r ∈ (download_files_parallel read fenv files basePath outputDir flatten).2.results,
        isCancelErr r = true) →
      (download_files_parallel read fenv files basePath outputDir flatten).1 =
        .error "Download cancelled") := by
  have hc := runFetchUnits_counters read fenv basePath outputDir flatten files.length files 0 0 0
  constructor
  · intro hall
    unfold download_files_parallel at hall ⊢
    have hany : (runFetchUnits read fenv basePath outputDir flatten files.length 0 0 0 files).results.any isCancelErr = false := by
      rw [Bool.eq_false_iff]
      intro hx
      obtain ⟨r, hr, hcr⟩ := List.any_eq_true.mp hx
      exact absurd (hall r hr) (by simp [hcr])
    simp only [hany, Bool.false_eq_true, if_false]
    rw [hc.1, hc.2]
    simp
  · intro hex
    unfold download_files_parallel at hex ⊢
    have hany : (runFetchUnits read fenv basePath outputDir flatten files.length 0 0 0 files).results.any isCancelErr = true := by
      obtain ⟨r, hr, hcr⟩ := hex
      exact List.any_eq_true.mpr ⟨r, hr, hcr⟩
    simp [hany]

/-- Witness for C5: a two-file batch where the second download fails with
an HTTP error returns `Ok` counting only the first file; a batch whose
unit was cancelled returns the cancellation error. -/
theorem claim5_witness :
    (download_files_parallel (fun _ => false)
        (fun i => if i = 0 then ⟨none, .ok 200, .ok 7, none⟩ else ⟨none, .ok 500, .ok 0, none⟩)
        [⟨"u1", "docs/a.txt", 7⟩, ⟨"u2", "docs/b.txt", 9⟩] "docs" "/out" false).1 =
      .ok (1, 7) ∧
    (download_files_parallel (fun _ => true) (fun _ => ⟨none, .ok 200, .ok 7, none⟩)
        [⟨"u1", "docs/a.txt", 7⟩] "docs" "/out" false).1 =
      .error "Download cancelled" := by
  constructor
  · have h := (claim5_theorem (fun _ => false)
      (fun i => if i = 0 then ⟨none, .ok 200, .ok 7, none⟩ else ⟨none, .ok 500, .ok 0, none⟩)
      [⟨"u1", "docs/a.txt", 7⟩, ⟨"u2", "docs/b.txt", 9⟩] "docs" "/out" false).1 (by decide)
    exact h.trans (by decide)
  · exact (claim5_theorem (fun _ => true) (fun _ => ⟨none, .ok 200, .ok 7, none⟩)
      [⟨"u1", "docs/a.txt", 7⟩] "docs" "/out" false).2 (by decide)

/-! ## C6: fail-fast FolderNotFound during archive extraction -/

/-- C6.  With a non-empty subpath, when no non-directory archive entry
starts with the filter prefix (root prefix + subpath + "/"), the archive
strategy fails with the folder-not-found error and extracts nothing. -/
theorem claim6_theorem (read : Nat → Bool) (p : Nat) (env : ZipEnv)
    (urlInfo : GitHubUrlInfo) (outputPath : String) (options : GitDownloadOptions)
    (status : Nat) (e0 : ZipEntry) (es : List ZipEntry)
    (hpath : ¬ urlInfo.path = "")
    (hsend : env.sendResult = .ok status) (hst : 200 ≤ status ∧ status ≤ 299)
    (htd : env.tempDirErr = none) (htf : env.tempFileErr = none)
    (hstream : (streamChunks read p 0 env.startTime env.chunks).err = none)
    (hopen : env.openErr = none) (hread : env.readErr = none)
    (hent : env.entries = e0 :: es)
    (hout : env.createOutErr = none)
    (hmatch : env.entries.countP (fun e =>
        strStarts e.name (firstSegment e0.name ++ "/" ++ urlInfo.path ++ "/") && ! zipIsDir e) = 0) :
    (download_via_zipball read p env urlInfo outputPath options).result =
      .error ("Folder '" ++ urlInfo.path ++ "' not found in repository") ∧
    (download_via_zipball read p env urlInfo outputPath options).extracted = [] := by
  rw [hent] at hmatch
  unfold download_via_zipball
  rw [hsend]
  simp only [if_neg (not_not_intro hst), htd, htf, hstream, hopen, hread, hent, hout]
  simp only [if_neg hpath, hmatch]
  simp [hpath]

/-- Witness for C6: a one-entry archive with no entry under `docs/`. -/
theorem claim6_witness :
    (download_via_zipball (fun _ => false) 0
      ⟨.ok 200, none, none, 0, [], none, none, [⟨"o-r-sha1/readme.md", 5⟩], fun _ => none, none⟩
      ⟨"o", "r", "b", "docs"⟩ "/out" ⟨true, false, false⟩).result =
      .error ("Folder '" ++ "docs" ++ "' not found in repository") := by
  exact (claim6_theorem (fun _ => false) 0
    ⟨.ok 200, none, none, 0, [], none, none, [⟨"o-r-sha1/readme.md", 5⟩], fun _ => none, none⟩
    ⟨"o", "r", "b", "docs"⟩ "/out" ⟨true, false, false⟩ 200 ⟨"o-r-sha1/readme.md", 5⟩ []
    (by decide) rfl (by decide) rfl rfl rfl rfl rfl rfl rfl (by decide)).1

/-! ## C7: throttled heuristic progress during archive streaming -/

theorem streamPercent_eq (d : Nat) : streamPercent d = 15 + min (d / 1000000) 35 := by
  unfold streamPercent
  have h : 15 + min (d / 1000000) 35 ≤ 50 := by
    have := Nat.min_le_right (d / 1000000) 35
    omega
  exact Nat.min_eq_left h

theorem streamChunks_spec (read : Nat → Bool) :
    ∀ (cs : List ChunkInfo) (p d lu : Nat),
      (∀ se ∈ (streamChunks read p d lu cs).events,
          se.ev.percent = streamPercent se.downloaded ∧
          se.ev.stage = "downloading" ∧ d ≤ se.downloaded) ∧
      List.Chain' (fun a b : StreamEv => a.downloaded ≤ b.downloaded)
        (streamChunks read p d lu cs).events ∧
      List.Chain (fun a b : Nat => 500 < b - a) lu
        ((streamChunks read p d lu cs).events.map (·.time)) := by
  intro cs
  induction cs with
  | nil => intro p d lu; simp [streamChunks]
  | cons c cs ih =>
    intro p d lu
    rw [streamChunks]
    cases hr : read p with
    | true => simp
    | false =>
      simp only [Bool.false_eq_true, if_false]
      cases hd : c.data with
      | error e => simp
      | ok len =>
        cases hw : c.writeErr with
        | some e => simp
        | none =>
          simp only
          by_cases ht : c.time - lu > 500
          · rw [if_pos ht]
            have h := ih (p + 1) (d + len) c.time
            refine ⟨?_, ?_, ?_⟩
            · intro se hse
              simp only [List.mem_cons] at hse
              rcases hse with hse | hse
              · subst hse
                exact ⟨rfl, rfl, Nat.le_add_right d len⟩
              · obtain ⟨h1, h2, h3⟩ := h.1 se hse
                exact ⟨h1, h2, by omega⟩
            · refine List.chain'_cons'.mpr ⟨?_, h.2.1⟩
              intro y hy
              have hmem : y ∈ (streamChunks read (p + 1) (d + len) c.time cs).events :=
                List.mem_of_mem_head? hy
              exact (h.1 y hmem).2.2
            · simp only [List.map_cons]
              exact List.Chain.cons ht h.2.2
          · rw [if_neg ht]
            have h := ih (p + 1) (d + len) lu
            refine ⟨?_, h.2.1, h.2.2⟩
            intro se hse
            obtain ⟨h1, h2, h3⟩ := h.1 se hse
            exact ⟨h1, h2, by omega⟩

/-- C7.  Every progress event emitted during the archive streaming phase
carries `percent = 15 + min(downloaded megabytes, 35)`, which never
exceeds 50, and consecutive emissions (starting from the phase's initial
instant) are separated by more than 500 ms of wall-clock time. -/
theorem claim7_theorem (read : Nat → Bool) (env : ZipEnv) (urlInfo : GitHubUrlInfo)
    (outputPath : String) (options : GitDownloadOptions) (p : Nat) :
    (∀ se ∈ (download_via_zipball read p env urlInfo outputPath options).streamDetail,
        se.ev.percent = 15 + min (se.downloaded / 1000000) 35 ∧ se.ev.percent ≤ 50) ∧
    List.Chain (fun a b : Nat => 500 < b - a) env.startTime
      (((download_via_zipball read p env urlInfo outputPath options).streamDetail).map (·.time)) := by
  have hspec := streamChunks_spec read env.chunks p 0 env.startTime
  have hdetail : (download_via_zipball read p env urlInfo outputPath options).streamDetail = [] ∨
      (download_via_zipball read p env urlInfo outputPath options).streamDetail =
        (streamChunks read p 0 env.startTime env.chunks).events := by
    unfold download_via_zipball
    repeat' first
    | (left; rfl)
    | (right; rfl)
    | split
    | dsimp only
  rcases hdetail with hdet | hdet <;> rw [hdet]
  · simp
  · refine ⟨?_, hspec.2.2⟩
    intro se hse
    obtain ⟨h1, h2, _⟩ := hspec.1 se hse
    rw [h1, streamPercent_eq]
    refine ⟨rfl, ?_⟩
    have := Nat.min_le_right (se.downloaded / 1000000) 35
    omega

/-! ## C3: empty subpath always selects the archive strategy -/

/-- C3.  For an empty subpath, `download_github_folder` goes straight to
the archive strategy: the Tree Lister is never invoked, the zipball runs
exactly once, and the run's result is the zipball's result. -/
theorem claim3_theorem (env : RunEnv) (sched : Nat → Bool) (init : Bool)
    (urlInfo : GitHubUrlInfo) (outputPath : String) (options : GitDownloadOptions)
    (h : urlInfo.path = "") :
    (download_github_folder env sched init urlInfo outputPath options).listingAttempted = false ∧
    (download_github_folder env sched init urlInfo outputPath options).zipballAttempts = 1 ∧
    (download_github_folder env sched init urlInfo outputPath options).result =
      (download_via_zipball (flagAtPoll false sched) 0 env.zip urlInfo outputPath options).result := by
  unfold download_github_folder downloadGithubFolderBody
  rw [if_neg (not_not_intro h)]
  exact ⟨rfl, rfl, rfl⟩

/-- Witness for C3 at a concrete whole-repository request. -/
theorem claim3_witness :
    (download_github_folder
        ⟨.netErr "unused", fun _ => ⟨none, .error "", .error "", none⟩, none,
          ⟨.error "net down", none, none, 0, [], none, none, [], fun _ => none, none⟩⟩
        (fun _ => false) false ⟨"acme", "widgets", "main", ""⟩ "/out"
        ⟨true, false, true⟩).listingAttempted = false ∧
    (download_github_folder
        ⟨.netErr "unused", fun _ => ⟨none, .error "", .error "", none⟩, none,
          ⟨.error "net down", none, none, 0, [], none, none, [], fun _ => none, none⟩⟩
        (fun _ => false) false ⟨"acme", "widgets", "main", ""⟩ "/out"
        ⟨true, false, true⟩).zipballAttempts = 1 := by
  have h := claim3_theorem
    ⟨.netErr "unused", fun _ => ⟨none, .error "", .error "", none⟩, none,
      ⟨.error "net down", none, none, 0, [], none, none, [], fun _ => none, none⟩⟩
    (fun _ => false) false ⟨"acme", "widgets", "main", ""⟩ "/out" ⟨true, false, true⟩ rfl
  exact ⟨h.1, h.2.1⟩

/-! ## C2: fallback policy on listing failure -/

/-- C2 counterexample.  The fallback decision matches substrings of the
error message, not the error's classification: for a folder literally
named `rate limit`, a 404 listing response produces the PathNotFound
error — neither the RateLimited nor the AccessDenied error — yet the
run propagates it immediately and the archive strategy is attempted zero
times, not exactly once as claimed. -/
theorem claim2_counterexample :
    list_github_contents_recursive (.resp 404 none (.parseErr "")) "rate limit" [] =
      .error "Path 'rate limit' not found in repository" ∧
    ("Path 'rate limit' not found in repository" : String) ≠ rateLimitMsg ∧
    ("Path 'rate limit' not found in repository" : String) ≠ accessDeniedMsg ∧
    (download_github_folder
        ⟨.resp 404 none (.parseErr ""), fun _ => ⟨none, .error "", .error "", none⟩, none,
          ⟨.error "net", none, none, 0, [], none, none, [], fun _ => none, none⟩⟩
        (fun _ => false) false ⟨"o", "r", "b", "rate limit"⟩ "/out"
        ⟨true, false, false⟩).zipballAttempts = 0 := by decide

/-- C2 (amended).  The fallback decision is by substring matching on the
listing error message: a message containing `"rate limit"` or
`"Access denied"` propagates immediately and the archive strategy is
never attempted; any other message triggers the archive strategy exactly
once.  The RateLimited and AccessDenied errors always contain their
respective substrings (so they always propagate), but other failures
whose message happens to contain one of the substrings — e.g.
PathNotFound for a folder whose name contains `"rate limit"` — also
propagate without fallback. -/
theorem claim2_theorem (env : RunEnv) (sched : Nat → Bool) (init : Bool)
    (urlInfo : GitHubUrlInfo) (outputPath : String) (options : GitDownloadOptions) (e : String)
    (hpath : ¬ urlInfo.path = "")
    (hlist : list_github_contents_recursive env.listing urlInfo.path [] = .error e) :
    ((strContains e "rate limit" || strContains e "Access denied") = true →
      (download_github_folder env sched init urlInfo outputPath options).result = .error e ∧
      (download_github_folder env sched init urlInfo outputPath options).zipballAttempts = 0) ∧
    ((strContains e "rate limit" || strContains e "Access denied") = false →
      (download_github_folder env sched init urlInfo outputPath options).zipballAttempts = 1 ∧
      (download_github_folder env sched init urlInfo outputPath options).result =
        (download_via_zipball (flagAtPoll false sched) 0 env.zip urlInfo outputPath options).result) ∧
    (strContains rateLimitMsg "rate limit" = true ∧
      strContains accessDeniedMsg "Access denied" = true) := by
  refine ⟨?_, ?_, by decide, by decide⟩
  · intro hc
    unfold download_github_folder downloadGithubFolderBody
    rw [if_pos hpath, hlist]
    simp only [hc, if_true]
    exact ⟨trivial, trivial⟩
  · intro hc
    unfold download_github_folder downloadGithubFolderBody
    rw [if_pos hpath, hlist]
    simp only [hc, Bool.false_eq_true, if_false]
    exact ⟨trivial, trivial⟩

/-- Witness for C2: a transient network failure (message matching neither
substring) falls back to the archive strategy exactly once. -/
theorem claim2_witness :
    (download_github_folder
        ⟨.netErr "boom", fun _ => ⟨none, .error "", .error "", none⟩, none,
          ⟨.error "net", none, none, 0, [], none, none, [], fun _ => none, none⟩⟩
        (fun _ => false) false ⟨"o", "r", "b", "docs"⟩ "/out"
        ⟨true, false, false⟩).zipballAttempts = 1 := by
  exact ((claim2_theorem
    ⟨.netErr "boom", fun _ => ⟨none, .error "", .error "", none⟩, none,
      ⟨.error "net", none, none, 0, [], none, none, [], fun _ => none, none⟩⟩
    (fun _ => false) false ⟨"o", "r", "b", "docs"⟩ "/out" ⟨true, false, false⟩
    "Failed to list contents: boom" (by decide) (by decide)).2.1 (by decide)).1

/-! ## C10: the cancellation flag is reset at the start of every run -/

theorem flagAtPoll_false (sched : Nat → Bool) (h : ∀ j, sched j = false) (k : Nat) :
    flagAtPoll false sched k = false := by
  unfold flagAtPoll
  simp [h]

theorem processFile_cancelOnly (c : Bool) (env : FileEnv) (f : FileToDownload)
    (bp od : String) (fl : Bool)
    (h : processFile c env f bp od fl = .error "Download cancelled") : c = true := by
  cases c with
  | true => rfl
  | false =>
    exfalso
    unfold processFile at h
    simp only [Bool.false_eq_true, if_false] at h
    repeat' first
    | (exact Except.noConfusion h)
    | (have hstr := Except.error.inj h
       first
       | exact absurd hstr (of_decide_eq_true rfl)
       | exact absurd hstr (prefixed_ne _ _ _ (of_decide_eq_true rfl))
       | (simp only [String.append_assoc] at hstr
          exact absurd hstr (prefixed_ne _ _ _ (of_decide_eq_true rfl))))
    | split at h
    | dsimp only at h

theorem runFetchUnits_cancelOnly (read : Nat → Bool) (fenv : Nat → FileEnv)
    (bp od : String) (fl : Bool) (total : Nat) :
    ∀ (fs : List FileToDownload) (idx count size : Nat),
      (∃ r ∈ (runFetchUnits read fenv bp od fl total idx count size fs).results,
        isCancelErr r = true) →
      ∃ k, read k = true := by
  intro fs
  induction fs with
  | nil => intro idx count size h; simp [runFetchUnits] at h
  | cons f fs ih =>
    intro idx count size h
    rw [runFetchUnits] at h
    cases hp : processFile (read idx) (fenv idx) f bp od fl with
    | ok v =>
      rw [hp] at h
      obtain ⟨len, outPath⟩ := v
      simp only [List.mem_cons] at h
      obtain ⟨r, hr, hc⟩ := h
      rcases hr with hr | hr
      · subst hr; simp [isCancelErr] at hc
      · exact ih (idx + 1) (count + 1) (size + len) ⟨r, hr, hc⟩
    | error e =>
      rw [hp] at h
      simp only [List.mem_cons] at h
      obtain ⟨r, hr, hc⟩ := h
      rcases hr with hr | hr
      · subst hr
        simp only [isCancelErr] at hc
        have he : e = "Download cancelled" := by
          exact (beq_iff_eq.mp hc)
        exact ⟨idx, processFile_cancelOnly (read idx) (fenv idx) f bp od fl (he ▸ hp)⟩
      · exact ih (idx + 1) count size ⟨r, hr, hc⟩

theorem dfp_cancelOnly (read : Nat → Bool) (fenv : Nat → FileEnv)
    (files : List FileToDownload) (bp od : String) (fl : Bool)
    (h : (download_files_parallel read fenv files bp od fl).1 = .error "Download cancelled") :
    ∃ k, read k = true := by
  unfold download_files_parallel at h
  dsimp only at h
  by_cases hany :
      (runFetchUnits read fenv bp od fl files.length 0 0 0 files).results.any isCancelErr = true
  · exact runFetchUnits_cancelOnly read fenv bp od fl files.length files 0 0 0
      (List.any_eq_true.mp hany)
  · rw [if_neg hany] at h
    exact absurd h (by simp)

theorem streamChunks_cancelOnly (read : Nat → Bool) :
    ∀ (cs : List ChunkInfo) (p d lu : Nat),
      (streamChunks read p d lu cs).err = some "Download cancelled" → ∃ k, read k = true := by
  intro cs
  induction cs with
  | nil => intro p d lu h; exact Option.noConfusion h
  | cons c cs ih =>
    intro p d lu h
    rw [streamChunks] at h
    repeat' first
    | (exact Option.noConfusion h)
    | (rename_i hr
       exact ⟨p, hr⟩)
    | (have hstr := Option.some.inj h
       first
       | exact absurd hstr (of_decide_eq_true rfl)
       | exact absurd hstr (prefixed_ne _ _ _ (of_decide_eq_true rfl))
       | (simp only [String.append_assoc] at hstr
          exact absurd hstr (prefixed_ne _ _ _ (of_decide_eq_true rfl))))
    | (exact ih _ _ _ h)
    | split at h
    | dsimp only at h

theorem extractEntries_cancelOnly (read : Nat → Bool) (fsErr : Nat → Option ExtractFsErr)
    (fp fo : String) (fl : Bool) (m : Nat) :
    ∀ (es : List ZipEntry) (p i count size : Nat),
      (extractEntries read fsErr fp fo fl m p i count size es).err =
        some "Download cancelled" →
      ∃ k, read k = true := by
  intro es
  induction es with
  | nil => intro p i count size h; exact Option.noConfusion h
  | cons e es ih =>
    intro p i count size h
    rw [extractEntries] at h
    repeat' first
    | (exact Option.noConfusion h)
    | (rename_i hr
       exact ⟨p, hr⟩)
    | (have hstr := Option.some.inj h
       first
       | exact absurd hstr (of_decide_eq_true rfl)
       | exact absurd hstr (prefixed_ne _ _ _ (of_decide_eq_true rfl))
       | (simp only [String.append_assoc] at hstr
          exact absurd hstr (prefixed_ne _ _ _ (of_decide_eq_true rfl))))
    | (exact ih _ _ _ _ h)
    | (rename_i fe hfe
       cases fe <;>
         (simp only [extractFsMsg] at h
          have hstr := Option.some.inj h
          exact absurd hstr (prefixed_ne _ _ _ (of_decide_eq_true rfl))))
    | split at h
    | dsimp only at h

theorem zipball_cancelOnly (read : Nat → Bool) (p : Nat) (env : ZipEnv)
    (u : GitHubUrlInfo) (o : String) (opts : GitDownloadOptions)
    (h : (download_via_zipball read p env u o opts).result = .error "Download cancelled") :
    ∃ k, read k = true := by
  unfold download_via_zipball at h
  repeat' first
  | (exact Except.noConfusion h)
  | (have hstr := Except.error.inj h
     first
     | exact absurd hstr (of_decide_eq_true rfl)
     | exact absurd hstr (prefixed_ne _ _ _ (of_decide_eq_true rfl))
     | (simp only [String.append_assoc] at hstr
        exact absurd hstr (prefixed_ne _ _ _ (of_decide_eq_true rfl))))
  | (rename_i e heq
     rw [Except.error.inj h] at heq
     first
     | exact streamChunks_cancelOnly read env.chunks p 0 env.startTime heq
     | exact extractEntries_cancelOnly read env.extractFs _ _ _ _ env.entries _ _ _ _ heq)
  | split at h
  | dsimp only at h

theorem body_cancelOnly (env : RunEnv) (read : Nat → Bool) (u : GitHubUrlInfo)
    (o : String) (opts : GitDownloadOptions)
    (h : (downloadGithubFolderBody env read u o opts).result = .error "Download cancelled") :
    ∃ k, read k = true := by
  unfold downloadGithubFolderBody at h
  repeat' first
  | (exact Except.noConfusion h)
  | (have hstr := Except.error.inj h
     first
     | exact absurd hstr (of_decide_eq_true rfl)
     | exact absurd hstr (prefixed_ne _ _ _ (of_decide_eq_true rfl))
     | (simp only [String.append_assoc] at hstr
        exact absurd hstr (prefixed_ne _ _ _ (of_decide_eq_true rfl))))
  | (exact zipball_cancelOnly read 0 env.zip u o opts h)
  | (rename_i e heq
     rw [Except.error.inj h] at heq
     exact dfp_cancelOnly read env.fileEnv _ u.path _ opts.flatten_structure heq)
  | (rename_i hcond
     rw [Except.error.inj h] at hcond
     exact absurd hcond (of_decide_eq_true rfl))
  | split at h
  | dsimp only at h

/-- C10.  `download_github_folder` resets the shared cancellation flag to
`false` at the start of every run: the run's outcome is independent of
the flag value left over from before the run (a `cancel_git_download`
issued before the run begins has no effect), and when no cancel command
runs during the run, the run can never end in the Cancelled error. -/
theorem claim10_theorem (env : RunEnv) (sched : Nat → Bool) (i1 i2 : Bool)
    (urlInfo : GitHubUrlInfo) (outputPath : String) (options : GitDownloadOptions) :
    download_github_folder env sched i1 urlInfo outputPath options =
      download_github_folder env sched i2 urlInfo outputPath options ∧
    ((∀ j, sched j = false) →
      (download_github_folder env sched i1 urlInfo outputPath options).result ≠
        .error "Download cancelled") := by
  refine ⟨rfl, ?_⟩
  intro hs hres
  obtain ⟨k, hk⟩ := body_cancelOnly env (flagAtPoll false sched) urlInfo outputPath options hres
  rw [flagAtPoll_false sched hs k] at hk
  exact absurd hk (by simp)

/-- Witness for C10: a run started with the leftover flag set behaves as
one started with it clear, and without an in-run cancel it does not end
in the Cancelled error. -/
theorem claim10_witness :
    download_github_folder
        ⟨.netErr "unused", fun _ => ⟨none, .error "", .error "", none⟩, none,
          ⟨.error "net down", none, none, 0, [], none, none, [], fun _ => none, none⟩⟩
        (fun _ => false) true ⟨"o", "r", "b", ""⟩ "/out" ⟨true, false, false⟩ =
      download_github_folder
        ⟨.netErr "unused", fun _ => ⟨none, .error "", .error "", none⟩, none,
          ⟨.error "net down", none, none, 0, [], none, none, [], fun _ => none, none⟩⟩
        (fun _ => false) false ⟨"o", "r", "b", ""⟩ "/out" ⟨true, false, false⟩ ∧
    (download_github_folder
        ⟨.netErr "unused", fun _ => ⟨none, .error "", .error "", none⟩, none,
          ⟨.error "net down", none, none, 0, [], none, none, [], fun _ => none, none⟩⟩
        (fun _ => false) true ⟨"o", "r", "b", ""⟩ "/out" ⟨true, false, false⟩).result ≠
      .error "Download cancelled" := by
  have h := claim10_theorem
    ⟨.netErr "unused", fun _ => ⟨none, .error "", .error "", none⟩, none,
      ⟨.error "net down", none, none, 0, [], none, none, [], fun _ => none, none⟩⟩
    (fun _ => false) true false ⟨"o", "r", "b", ""⟩ "/out" ⟨true, false, false⟩
  exact ⟨h.1, h.2 (fun j => rfl)⟩

/-! ## C8: progress monotonicity and completion -/

/-- Ordering of progress events by percent. -/
def percLE (a b : GitDownloadProgress) : Prop := a.percent ≤ b.percent

theorem chain'_of_chain'_mem {α : Type} {R S : α → α → Prop} :
    ∀ {l : List α}, List.Chain' R l → (∀ a ∈ l, ∀ b ∈ l, R a b → S a b) →
      List.Chain' S l := by
  intro l
  induction l with
  | nil => intro _ _; simp
  | cons a l ih =>
    intro h himp
    rw [List.chain'_cons'] at h ⊢
    refine ⟨?_, ih h.2 ?_⟩
    · intro y hy
      exact himp a (by simp) y (List.mem_cons_of_mem a (List.mem_of_mem_head? hy)) (h.1 y hy)
    · intro x hx y hy hr
      exact himp x (List.mem_cons_of_mem a hx) y (List.mem_cons_of_mem a hy) hr

theorem chain'_append_of_bounds {l₁ l₂ : List GitDownloadProgress} {m : Nat}
    (h₁ : List.Chain' percLE l₁) (h₂ : List.Chain' percLE l₂)
    (hub : ∀ e ∈ l₁, e.percent ≤ m) (hlb : ∀ e ∈ l₂, m ≤ e.percent) :
    List.Chain' percLE (l₁ ++ l₂) := by
  rw [List.chain'_append]
  refine ⟨h₁, h₂, ?_⟩
  intro x hx y hy
  exact le_trans (hub x (List.mem_of_mem_getLast? hx)) (hlb y (List.mem_of_mem_head? hy))

theorem countP100_zero (l : List GitDownloadProgress) (h : ∀ e ∈ l, e.percent ≤ 95) :
    l.countP (fun e => e.percent == 100) = 0 := by
  rw [List.countP_eq_zero]
  intro a ha
  have := h a ha
  simp only [beq_iff_eq]
  omega

theorem fetchPercent_mono (t : Nat) {c c' : Nat} (h : c ≤ c') :
    fetchPercent t c ≤ fetchPercent t c' := by
  unfold fetchPercent
  exact min_le_min
    (Nat.add_le_add_left (Nat.div_le_div_right (Nat.mul_le_mul_left 85 h)) 10)
    (le_refl 95)

theorem fetchPercent_bounds (t c : Nat) : 10 ≤ fetchPercent t c ∧ fetchPercent t c ≤ 95 :=
  ⟨le_min (Nat.le_add_right 10 _) (by omega), min_le_right _ _⟩

theorem extractPercent_mono (m : Nat) {c c' : Nat} (h : c ≤ c') :
    extractPercent m c ≤ extractPercent m c' := by
  unfold extractPercent
  exact min_le_min
    (Nat.add_le_add_left (Nat.div_le_div_right (Nat.mul_le_mul_left 35 h)) 60)
    (le_refl 95)

theorem extractPercent_bounds (m c : Nat) : 60 ≤ extractPercent m c ∧ extractPercent m c ≤ 95 :=
  ⟨le_min (Nat.le_add_right 60 _) (by omega), min_le_right _ _⟩

theorem streamPercent_mono {d d' : Nat} (h : d ≤ d') : streamPercent d ≤ streamPercent d' := by
  unfold streamPercent
  exact min_le_min
    (Nat.add_le_add_left (min_le_min (Nat.div_le_div_right h) (le_refl 35)) 15)
    (le_refl 50)

theorem streamPercent_bounds (d : Nat) : 15 ≤ streamPercent d ∧ streamPercent d ≤ 50 :=
  ⟨le_min (Nat.le_add_right 15 _) (by omega), min_le_right _ _⟩

theorem streamChunks_percent_chain (read : Nat → Bool) (cs : List ChunkInfo) (p d lu : Nat) :
    List.Chain' percLE ((streamChunks read p d lu cs).events.map (·.ev)) := by
  rw [List.chain'_map]
  refine chain'_of_chain'_mem (streamChunks_spec read cs p d lu).2.1 ?_
  intro a ha b hb hr
  show a.ev.percent ≤ b.ev.percent
  rw [((streamChunks_spec read cs p d lu).1 a ha).1, ((streamChunks_spec read cs p d lu).1 b hb).1]
  exact streamPercent_mono hr

theorem streamEvents_bounds (read : Nat → Bool) (cs : List ChunkInfo) (p d lu : Nat) :
    ∀ ev ∈ (streamChunks read p d lu cs).events.map (·.ev),
      15 ≤ ev.percent ∧ ev.percent ≤ 50 := by
  intro ev hev
  rw [List.mem_map] at hev
  obtain ⟨se, hse, hrfl⟩ := hev
  subst hrfl
  rw [((streamChunks_spec read cs p d lu).1 se hse).1]
  exact streamPercent_bounds se.downloaded

theorem runFetchUnits_events_spec (read : Nat → Bool) (fenv : Nat → FileEnv)
    (bp od : String) (fl : Bool) (total : Nat) :
    ∀ (fs : List FileToDownload) (idx count size : Nat),
      List.Chain' percLE (runFetchUnits read fenv bp od fl total idx count size fs).events ∧
      ∀ ev ∈ (runFetchUnits read fenv bp od fl total idx count size fs).events,
        fetchPercent total (count + 1) ≤ ev.percent ∧ 10 ≤ ev.percent ∧ ev.percent ≤ 95 := by
  intro fs
  induction fs with
  | nil => intro idx count size; simp [runFetchUnits]
  | cons f fs ih =>
    intro idx count size
    rw [runFetchUnits]
    cases hp : processFile (read idx) (fenv idx) f bp od fl with
    | error e => exact ih (idx + 1) count size
    | ok v =>
      obtain ⟨len, outPath⟩ := v
      have h := ih (idx + 1) (count + 1) (size + len)
      constructor
      · rw [List.chain'_cons']
        refine ⟨?_, h.1⟩
        intro y hy
        have hm := h.2 y (List.mem_of_mem_head? hy)
        exact le_trans (fetchPercent_mono total (Nat.le_succ _)) hm.1
      · intro ev' hev'
        rcases List.mem_cons.mp hev' with he | he
        · subst he
          exact ⟨le_refl _, (fetchPercent_bounds total (count + 1)).1,
            (fetchPercent_bounds total (count + 1)).2⟩
        · have hm := h.2 ev' he
          exact ⟨le_trans (fetchPercent_mono total (Nat.le_succ _)) hm.1, hm.2.1, hm.2.2⟩

theorem extractEntries_events_spec (read : Nat → Bool) (fsErr : Nat → Option ExtractFsErr)
    (fp fo : String) (fl : Bool) (m : Nat) :
    ∀ (es : List ZipEntry) (p i count size : Nat),
      List.Chain' percLE (extractEntries read fsErr fp fo fl m p i count size es).events ∧
      ∀ ev ∈ (extractEntries read fsErr fp fo fl m p i count size es).events,
        extractPercent m (count + 1) ≤ ev.percent ∧ 60 ≤ ev.percent ∧ ev.percent ≤ 95 := by
  intro es
  induction es with
  | nil => intro p i count size; simp [extractEntries]
  | cons e es ih =>
    intro p i count size
    rw [extractEntries]
    by_cases hr : read p = true
    · rw [if_pos hr]; simp
    · rw [if_neg hr]
      by_cases hs : ¬ strStarts e.name fp = true
      · rw [if_pos hs]; exact ih (p + 1) (i + 1) count size
      · rw [if_neg hs]
        by_cases hd : zipIsDir e = true
        · rw [if_pos hd]; exact ih (p + 1) (i + 1) count size
        · rw [if_neg hd]
          cases hf : fsErr i with
          | some fe => simp
          | none =>
            have h := ih (p + 1) (i + 1) (count + 1) (size + e.size)
            constructor
            · rw [List.chain'_cons']
              refine ⟨?_, h.1⟩
              intro y hy
              exact le_trans (extractPercent_mono m (Nat.le_succ _))
                (h.2 y (List.mem_of_mem_head? hy)).1
            · intro ev' hev'
              rcases List.mem_cons.mp hev' with he | he
              · subst he
                exact ⟨le_refl _, (extractPercent_bounds m (count + 1)).1,
                  (extractPercent_bounds m (count + 1)).2⟩
              · have hm := h.2 ev' he
                exact ⟨le_trans (extractPercent_mono m (Nat.le_succ _)) hm.1, hm.2.1, hm.2.2⟩

/-- The progress specification of a run's event list together with its
result: percents are non-decreasing and at most 100; a successful run
ends with exactly one percent-100 `complete` event; a failed run emits
no percent-100 event at all. -/
def ZipRunSpec (E : List GitDownloadProgress) (res : Except String GitDownloadResult) : Prop :=
  List.Chain' percLE E ∧
  (∀ e ∈ E, 10 ≤ e.percent ∧ e.percent ≤ 100) ∧
  (∀ r, res = .ok r →
    (∃ ev, E.getLast? = some ev ∧ ev.percent = 100 ∧ ev.stage = "complete") ∧
    E.countP (fun e => e.percent == 100) = 1) ∧
  (∀ m, res = .error m → E.countP (fun e => e.percent == 100) = 0)

theorem headList_bounds {m10 m50 m55 : String} {sEvs : List GitDownloadProgress}
    (hsb : ∀ ev ∈ sEvs, 15 ≤ ev.percent ∧ ev.percent ≤ 50) :
    ∀ e ∈ ((⟨"downloading", 10, m10, none, none⟩ :: sEvs) ++
        [⟨"downloading", 50, m50, none, none⟩, ⟨"extracting", 55, m55, none, none⟩] :
        List GitDownloadProgress),
      10 ≤ e.percent ∧ e.percent ≤ 55 := by
  intro e he
  rcases List.mem_append.mp he with he | he
  · rcases List.mem_cons.mp he with he | he
    · subst he; exact ⟨by simp, by simp⟩
    · have := hsb e he; exact ⟨by omega, by omega⟩
  · rcases List.mem_cons.mp he with he | he
    · subst he; exact ⟨by simp, by simp⟩
    · rcases List.mem_cons.mp he with he | he
      · subst he; exact ⟨by simp, by simp⟩
      · exact absurd he (List.not_mem_nil e)

theorem headList_chain {m10 m50 m55 : String} {sEvs : List GitDownloadProgress}
    (hsb : ∀ ev ∈ sEvs, 15 ≤ ev.percent ∧ ev.percent ≤ 50)
    (hsc : List.Chain' percLE sEvs) :
    List.Chain' percLE ((⟨"downloading", 10, m10, none, none⟩ :: sEvs) ++
      [⟨"downloading", 50, m50, none, none⟩, ⟨"extracting", 55, m55, none, none⟩]) := by
  refine chain'_append_of_bounds (m := 50) ?_ ?_ ?_ ?_
  · rw [List.chain'_cons']
    refine ⟨?_, hsc⟩
    intro y hy
    have := hsb y (List.mem_of_mem_head? hy)
    show (10 : Nat) ≤ y.percent
    omega
  · rw [List.chain'_cons']
    refine ⟨?_, List.chain'_singleton _⟩
    intro y hy
    simp only [List.head?_cons, Option.mem_def, Option.some.injEq] at hy
    subst hy
    show (50 : Nat) ≤ 55
    omega
  · intro e he
    rcases List.mem_cons.mp he with he | he
    · subst he; exact by simp
    · have := hsb e he; omega
  · intro e he
    rcases List.mem_cons.mp he with he | he
    · subst he; exact by simp
    · rcases List.mem_cons.mp he with he | he
      · subst he; exact by simp
      · exact absurd he (List.not_mem_nil e)

theorem headList_count {m10 m50 m55 : String} {sEvs : List GitDownloadProgress}
    (hsb : ∀ ev ∈ sEvs, 15 ≤ ev.percent ∧ ev.percent ≤ 50) :
    ((⟨"downloading", 10, m10, none, none⟩ :: sEvs) ++
        [⟨"downloading", 50, m50, none, none⟩, ⟨"extracting", 55, m55, none, none⟩] :
        List GitDownloadProgress).countP (fun e => e.percent == 100) = 0 := by
  have := @headList_bounds m10 m50 m55 sEvs hsb
  exact countP100_zero _ (fun e he => by have := this e he; omega)

theorem zipLeafSingle {m10 msg : String} :
    ZipRunSpec [⟨"downloading", 10, m10, none, none⟩] (.error msg) := by
  refine ⟨List.chain'_singleton _, ?_, ?_, ?_⟩
  · intro e he
    simp only [List.mem_singleton] at he
    subst he
    exact ⟨by simp, by simp⟩
  · intro r hr; exact Except.noConfusion hr
  · intro m hm
    simp [List.countP_cons]

theorem zipLeafB {m10 msg : String} {sEvs : List GitDownloadProgress}
    (hsb : ∀ ev ∈ sEvs, 15 ≤ ev.percent ∧ ev.percent ≤ 50)
    (hsc : List.Chain' percLE sEvs) :
    ZipRunSpec (⟨"downloading", 10, m10, none, none⟩ :: sEvs) (.error msg) := by
  refine ⟨?_, ?_, ?_, ?_⟩
  · rw [List.chain'_cons']
    refine ⟨?_, hsc⟩
    intro y hy
    have := hsb y (List.mem_of_mem_head? hy)
    show (10 : Nat) ≤ y.percent
    omega
  · intro e he
    rcases List.mem_cons.mp he with he | he
    · subst he; exact ⟨by simp, by simp⟩
    · have := hsb e he; exact ⟨by omega, by omega⟩
  · intro r hr; exact Except.noConfusion hr
  · intro m hm
    rw [List.countP_cons, countP100_zero sEvs (fun e he => by have := hsb e he; omega)]
    simp

theorem zipLeafHead {m10 m50 m55 msg : String} {sEvs : List GitDownloadProgress}
    (hsb : ∀ ev ∈ sEvs, 15 ≤ ev.percent ∧ ev.percent ≤ 50)
    (hsc : List.Chain' percLE sEvs) :
    ZipRunSpec ((⟨"downloading", 10, m10, none, none⟩ :: sEvs) ++
      [⟨"downloading", 50, m50, none, none⟩, ⟨"extracting", 55, m55, none, none⟩])
      (.error msg) := by
  refine ⟨headList_chain hsb hsc, ?_, ?_, ?_⟩
  · intro e he
    have := headList_bounds hsb e he
    exact ⟨by omega, by omega⟩
  · intro r hr; exact Except.noConfusion hr
  · intro m hm; exact headList_count hsb

theorem eList_chain {m10 m50 m55 m60 : String} {tf pf : Option Nat}
    {sEvs xEvs : List GitDownloadProgress}
    (hsb : ∀ ev ∈ sEvs, 15 ≤ ev.percent ∧ ev.percent ≤ 50)
    (hsc : List.Chain' percLE sEvs)
    (hxc : List.Chain' percLE xEvs)
    (hxb : ∀ ev ∈ xEvs, 60 ≤ ev.percent ∧ ev.percent ≤ 95) :
    List.Chain' percLE (((⟨"downloading", 10, m10, none, none⟩ :: sEvs) ++
      [⟨"downloading", 50, m50, none, none⟩, ⟨"extracting", 55, m55, none, none⟩]) ++
      ⟨"extracting", 60, m60, tf, pf⟩ :: xEvs) := by
  refine chain'_append_of_bounds (m := 55) (headList_chain hsb hsc) ?_
    (fun e he => (headList_bounds hsb e he).2) ?_
  · rw [List.chain'_cons']
    refine ⟨?_, hxc⟩
    intro y hy
    have := hxb y (List.mem_of_mem_head? hy)
    show (60 : Nat) ≤ y.percent
    omega
  · intro e he
    rcases List.mem_cons.mp he with he | he
    · subst he; exact by simp
    · have := hxb e he; omega

theorem eList_bounds {m10 m50 m55 m60 : String} {tf pf : Option Nat}
    {sEvs xEvs : List GitDownloadProgress}
    (hsb : ∀ ev ∈ sEvs, 15 ≤ ev.percent ∧ ev.percent ≤ 50)
    (hxb : ∀ ev ∈ xEvs, 60 ≤ ev.percent ∧ ev.percent ≤ 95) :
    ∀ e ∈ (((⟨"downloading", 10, m10, none, none⟩ :: sEvs) ++
      [⟨"downloading", 50, m50, none, none⟩, ⟨"extracting", 55, m55, none, none⟩]) ++
      ⟨"extracting", 60, m60, tf, pf⟩ :: xEvs),
      10 ≤ e.percent ∧ e.percent ≤ 95 := by
  intro e he
  rcases List.mem_append.mp he with he | he
  · have := headList_bounds hsb e he; exact ⟨by omega, by omega⟩
  · rcases List.mem_cons.mp he with he | he
    · subst he; exact ⟨by simp, by simp⟩
    · have := hxb e he; exact ⟨by omega, by omega⟩

theorem eList_count {m10 m50 m55 m60 : String} {tf pf : Option Nat}
    {sEvs xEvs : List GitDownloadProgress}
    (hsb : ∀ ev ∈ sEvs, 15 ≤ ev.percent ∧ ev.percent ≤ 50)
    (hxb : ∀ ev ∈ xEvs, 60 ≤ ev.percent ∧ ev.percent ≤ 95) :
    ((((⟨"downloading", 10, m10, none, none⟩ :: sEvs) ++
      [⟨"downloading", 50, m50, none, none⟩, ⟨"extracting", 55, m55, none, none⟩]) ++
      ⟨"extracting", 60, m60, tf, pf⟩ :: xEvs) :
      List GitDownloadProgress).countP (fun e => e.percent == 100) = 0 := by
  have := @eList_bounds m10 m50 m55 m60 tf pf sEvs xEvs hsb hxb
  exact countP100_zero _ (fun e he => by have := this e he; omega)

theorem zipLeafE {m10 m50 m55 m60 msg : String} {tf pf : Option Nat}
    {sEvs xEvs : List GitDownloadProgress}
    (hsb : ∀ ev ∈ sEvs, 15 ≤ ev.percent ∧ ev.percent ≤ 50)
    (hsc : List.Chain' percLE sEvs)
    (hxc : List.Chain' percLE xEvs)
    (hxb : ∀ ev ∈ xEvs, 60 ≤ ev.percent ∧ ev.percent ≤ 95) :
    ZipRunSpec (((⟨"downloading", 10, m10, none, none⟩ :: sEvs) ++
      [⟨"downloading", 50, m50, none, none⟩, ⟨"extracting", 55, m55, none, none⟩]) ++
      ⟨"extracting", 60, m60, tf, pf⟩ :: xEvs) (.error msg) := by
  refine ⟨eList_chain hsb hsc hxc hxb, ?_, ?_, ?_⟩
  · intro e he
    have := eList_bounds hsb hxb e he
    exact ⟨by omega, by omega⟩
  · intro r hr; exact Except.noConfusion hr
  · intro m hm; exact eList_count hsb hxb

theorem zipLeafF {m10 m50 m55 m60 mC : String} {tf pf tfC pfC : Option Nat}
    {res : GitDownloadResult} {sEvs xEvs : List GitDownloadProgress}
    (hsb : ∀ ev ∈ sEvs, 15 ≤ ev.percent ∧ ev.percent ≤ 50)
    (hsc : List.Chain' percLE sEvs)
    (hxc : List.Chain' percLE xEvs)
    (hxb : ∀ ev ∈ xEvs, 60 ≤ ev.percent ∧ ev.percent ≤ 95) :
    ZipRunSpec ((((⟨"downloading", 10, m10, none, none⟩ :: sEvs) ++
      [⟨"downloading", 50, m50, none, none⟩, ⟨"extracting", 55, m55, none, none⟩]) ++
      ⟨"extracting", 60, m60, tf, pf⟩ :: xEvs) ++ [⟨"complete", 100, mC, tfC, pfC⟩])
      (.ok res) := by
  refine ⟨?_, ?_, ?_, ?_⟩
  · refine chain'_append_of_bounds (m := 95) (eList_chain hsb hsc hxc hxb)
      (List.chain'_singleton _) (fun e he => (eList_bounds hsb hxb e he).2) ?_
    intro e he
    rcases List.mem_cons.mp he with he | he
    · subst he; exact by simp
    · exact absurd he (List.not_mem_nil e)
  · intro e he
    rcases List.mem_append.mp he with he | he
    · have := eList_bounds hsb hxb e he; exact ⟨by omega, by omega⟩
    · rcases List.mem_cons.mp he with he | he
      · subst he; exact ⟨by simp, by simp⟩
      · exact absurd he (List.not_mem_nil e)
  · intro r hr
    refine ⟨⟨⟨"complete", 100, mC, tfC, pfC⟩, List.getLast?_concat _, rfl, rfl⟩, ?_⟩
    rw [List.countP_append, eList_count hsb hxb]
    simp
  · intro m hm; exact Except.noConfusion hm

theorem zipball_events_spec (read : Nat → Bool) (p : Nat) (env : ZipEnv)
    (u : GitHubUrlInfo) (o : String) (opts : GitDownloadOptions) :
    ZipRunSpec (download_via_zipball read p env u o opts).events
      (download_via_zipball read p env u o opts).result := by
  have hsb := streamEvents_bounds read env.chunks p 0 env.startTime
  have hsc := streamChunks_percent_chain read env.chunks p 0 env.startTime
  unfold download_via_zipball
  repeat' first
  | (exact zipLeafSingle)
  | (exact zipLeafB hsb hsc)
  | (exact zipLeafHead hsb hsc)
  | (exact zipLeafE hsb hsc
      ((extractEntries_events_spec read env.extractFs _ _ _ _ env.entries _ _ 0 0).1)
      (fun ev hev =>
        ⟨((extractEntries_events_spec read env.extractFs _ _ _ _ env.entries _ _ 0 0).2 ev hev).2.1,
         ((extractEntries_events_spec read env.extractFs _ _ _ _ env.entries _ _ 0 0).2 ev hev).2.2⟩))
  | (exact zipLeafF hsb hsc
      ((extractEntries_events_spec read env.extractFs _ _ _ _ env.entries _ _ 0 0).1)
      (fun ev hev =>
        ⟨((extractEntries_events_spec read env.extractFs _ _ _ _ env.entries _ _ 0 0).2 ev hev).2.1,
         ((extractEntries_events_spec read env.extractFs _ _ _ _ env.entries _ _ 0 0).2 ev hev).2.2⟩))
  | split
  | dsimp only

/-- The progress specification of a full selector run (the initial events
sit below 10 percent, so only the upper bound is stated). -/
def RunEventsSpec (E : List GitDownloadProgress) (res : Except String GitDownloadResult) : Prop :=
  List.Chain' percLE E ∧
  (∀ e ∈ E, e.percent ≤ 100) ∧
  (∀ r, res = .ok r →
    (∃ ev, E.getLast? = some ev ∧ ev.percent = 100 ∧ ev.stage = "complete") ∧
    E.countP (fun e => e.percent == 100) = 1) ∧
  (∀ m, res = .error m → E.countP (fun e => e.percent == 100) = 0)

theorem bodyLeaf2 {m0 m5 msg : String} :
    RunEventsSpec [⟨"fetching", 0, m0, none, none⟩, ⟨"listing", 5, m5, none, none⟩]
      (.error msg) := by
  refine ⟨?_, ?_, ?_, ?_⟩
  · rw [List.chain'_cons']
    refine ⟨?_, List.chain'_singleton _⟩
    intro y hy
    simp only [List.head?_cons, Option.mem_def, Option.some.injEq] at hy
    subst hy
    show (0 : Nat) ≤ 5
    omega
  · intro e he
    rcases List.mem_cons.mp he with he | he
    · subst he; exact by simp
    · rcases List.mem_cons.mp he with he | he
      · subst he; exact by simp
      · exact absurd he (List.not_mem_nil e)
  · intro r hr; exact Except.noConfusion hr
  · intro m hm; simp [List.countP_cons]

theorem bodyLeaf3 {m0 m5 m10c msg : String} {tfv pfv : Option Nat} :
    RunEventsSpec [⟨"fetching", 0, m0, none, none⟩, ⟨"listing", 5, m5, none, none⟩,
      ⟨"downloading", 10, m10c, tfv, pfv⟩] (.error msg) := by
  refine ⟨?_, ?_, ?_, ?_⟩
  · rw [List.chain'_cons']
    constructor
    · intro y hy
      simp only [List.head?_cons, Option.mem_def, Option.some.injEq] at hy
      subst hy
      show (0 : Nat) ≤ 5
      omega
    · rw [List.chain'_cons']
      refine ⟨?_, List.chain'_singleton _⟩
      intro y hy
      simp only [List.head?_cons, Option.mem_def, Option.some.injEq] at hy
      subst hy
      show (5 : Nat) ≤ 10
      omega
  · intro e he
    rcases List.mem_cons.mp he with he | he
    · subst he; exact by simp
    · rcases List.mem_cons.mp he with he | he
      · subst he; exact by simp
      · rcases List.mem_cons.mp he with he | he
        · subst he; exact by simp
        · exact absurd he (List.not_mem_nil e)
  · intro r hr; exact Except.noConfusion hr
  · intro m hm; simp [List.countP_cons]

theorem base3_bounds {m0 m5 m10c : String} {tfv pfv : Option Nat} :
    ∀ e ∈ ([⟨"fetching", 0, m0, none, none⟩, ⟨"listing", 5, m5, none, none⟩,
      ⟨"downloading", 10, m10c, tfv, pfv⟩] : List GitDownloadProgress), e.percent ≤ 10 := by
  intro e he
  rcases List.mem_cons.mp he with he | he
  · subst he; exact by simp
  · rcases List.mem_cons.mp he with he | he
    · subst he; exact by simp
    · rcases List.mem_cons.mp he with he | he
      · subst he; exact by simp
      · exact absurd he (List.not_mem_nil e)

theorem batchList_chain {m0 m5 m10c : String} {tfv pfv : Option Nat}
    {bEvs : List GitDownloadProgress}
    (hfc : List.Chain' percLE bEvs)
    (hfb : ∀ e ∈ bEvs, 10 ≤ e.percent ∧ e.percent ≤ 95) :
    List.Chain' percLE ([⟨"fetching", 0, m0, none, none⟩, ⟨"listing", 5, m5, none, none⟩,
      ⟨"downloading", 10, m10c, tfv, pfv⟩] ++ bEvs) := by
  refine chain'_append_of_bounds (m := 10) ((@bodyLeaf3 m0 m5 m10c "" tfv pfv).1) hfc
    base3_bounds (fun e he => (hfb e he).1)

theorem batchList_count {m0 m5 m10c : String} {tfv pfv : Option Nat}
    {bEvs : List GitDownloadProgress}
    (hfb : ∀ e ∈ bEvs, 10 ≤ e.percent ∧ e.percent ≤ 95) :
    (([⟨"fetching", 0, m0, none, none⟩, ⟨"listing", 5, m5, none, none⟩,
      ⟨"downloading", 10, m10c, tfv, pfv⟩] ++ bEvs) :
      List GitDownloadProgress).countP (fun e => e.percent == 100) = 0 := by
  rw [List.countP_append, countP100_zero _ (fun e he => (hfb e he).2)]
  simp [List.countP_cons]

theorem bodyLeafBatchErr {m0 m5 m10c msg : String} {tfv pfv : Option Nat}
    {bEvs : List GitDownloadProgress}
    (hfc : List.Chain' percLE bEvs)
    (hfb : ∀ e ∈ bEvs, 10 ≤ e.percent ∧ e.percent ≤ 95) :
    RunEventsSpec ([⟨"fetching", 0, m0, none, none⟩, ⟨"listing", 5, m5, none, none⟩,
      ⟨"downloading", 10, m10c, tfv, pfv⟩] ++ bEvs) (.error msg) := by
  refine ⟨batchList_chain hfc hfb, ?_, ?_, ?_⟩
  · intro e he
    rcases List.mem_append.mp he with he | he
    · have := base3_bounds e he; omega
    · have := hfb e he; omega
  · intro r hr; exact Except.noConfusion hr
  · intro m hm; exact batchList_count hfb

theorem bodyLeafBatchOk {m0 m5 m10c mC : String} {tfv pfv tfC pfC : Option Nat}
    {res : GitDownloadResult} {bEvs : List GitDownloadProgress}
    (hfc : List.Chain' percLE bEvs)
    (hfb : ∀ e ∈ bEvs, 10 ≤ e.percent ∧ e.percent ≤ 95) :
    RunEventsSpec (([⟨"fetching", 0, m0, none, none⟩, ⟨"listing", 5, m5, none, none⟩,
      ⟨"downloading", 10, m10c, tfv, pfv⟩] ++ bEvs) ++ [⟨"complete", 100, mC, tfC, pfC⟩])
      (.ok res) := by
  refine ⟨?_, ?_, ?_, ?_⟩
  · refine chain'_append_of_bounds (m := 95) (batchList_chain hfc hfb)
      (List.chain'_singleton _) ?_ ?_
    · intro e he
      rcases List.mem_append.mp he with he | he
      · have := base3_bounds e he; omega
      · exact (hfb e he).2
    · intro e he
      rcases List.mem_cons.mp he with he | he
      · subst he; exact by simp
      · exact absurd he (List.not_mem_nil e)
  · intro e he
    rcases List.mem_append.mp he with he | he
    · rcases List.mem_append.mp he with he | he
      · have := base3_bounds e he; omega
      · have := hfb e he; omega
    · rcases List.mem_cons.mp he with he | he
      · subst he; exact by simp
      · exact absurd he (List.not_mem_nil e)
  · intro r hr
    refine ⟨⟨⟨"complete", 100, mC, tfC, pfC⟩, List.getLast?_concat _, rfl, rfl⟩, ?_⟩
    rw [List.countP_append, batchList_count hfb]
    simp
  · intro m hm; exact Except.noConfusion hm

theorem bodyLeafFallback {m0 m5 : String} {zEvs : List GitDownloadProgress}
    {zRes : Except String GitDownloadResult}
    (hz : ZipRunSpec zEvs zRes) :
    RunEventsSpec ([⟨"fetching", 0, m0, none, none⟩, ⟨"listing", 5, m5, none, none⟩] ++ zEvs)
      zRes := by
  refine ⟨?_, ?_, ?_, ?_⟩
  · refine chain'_append_of_bounds (m := 10) ((@bodyLeaf2 m0 m5 "").1) hz.1 ?_
      (fun e he => (hz.2.1 e he).1)
    intro e he
    rcases List.mem_cons.mp he with he | he
    · subst he; exact by simp
    · rcases List.mem_cons.mp he with he | he
      · subst he; exact by simp
      · exact absurd he (List.not_mem_nil e)
  · intro e he
    rcases List.mem_append.mp he with he | he
    · rcases List.mem_cons.mp he with he | he
      · subst he; exact by simp
      · rcases List.mem_cons.mp he with he | he
        · subst he; exact by simp
        · exact absurd he (List.not_mem_nil e)
    · exact (hz.2.1 e he).2
  · intro r hr
    obtain ⟨⟨ev, hev, hp, hs⟩, hcount⟩ := hz.2.2.1 r hr
    have hne : zEvs ≠ [] := by
      intro hnil
      rw [hnil] at hev
      exact Option.noConfusion hev
    refine ⟨⟨ev, ?_, hp, hs⟩, ?_⟩
    · rw [List.getLast?_append_of_ne_nil _ hne]
      exact hev
    · rw [List.countP_append, hcount]
      simp [List.countP_cons]
  · intro m hm
    rw [List.countP_append, hz.2.2.2 m hm]
    simp [List.countP_cons]

theorem bodyLeafDirect {m0 : String} {zEvs : List GitDownloadProgress}
    {zRes : Except String GitDownloadResult}
    (hz : ZipRunSpec zEvs zRes) :
    RunEventsSpec (⟨"fetching", 0, m0, none, none⟩ :: zEvs) zRes := by
  refine ⟨?_, ?_, ?_, ?_⟩
  · rw [List.chain'_cons']
    refine ⟨?_, hz.1⟩
    intro y hy
    have := hz.2.1 y (List.mem_of_mem_head? hy)
    show (0 : Nat) ≤ y.percent
    omega
  · intro e he
    rcases List.mem_cons.mp he with he | he
    · subst he; exact by simp
    · exact (hz.2.1 e he).2
  · intro r hr
    obtain ⟨⟨ev, hev, hp, hs⟩, hcount⟩ := hz.2.2.1 r hr
    have hne : zEvs ≠ [] := by
      intro hnil
      rw [hnil] at hev
      exact Option.noConfusion hev
    refine ⟨⟨ev, ?_, hp, hs⟩, ?_⟩
    · rw [show (⟨"fetching", 0, m0, none, none⟩ :: zEvs : List GitDownloadProgress) =
        [⟨"fetching", 0, m0, none, none⟩] ++ zEvs from rfl]
      rw [List.getLast?_append_of_ne_nil _ hne]
      exact hev
    · rw [List.countP_cons, hcount]
      simp
  · intro m hm
    rw [List.countP_cons, hz.2.2.2 m hm]
    simp

theorem body_events_spec (env : RunEnv) (read : Nat → Bool) (u : GitHubUrlInfo)
    (o : String) (opts : GitDownloadOptions) :
    RunEventsSpec (downloadGithubFolderBody env read u o opts).events
      (downloadGithubFolderBody env read u o opts).result := by
  have hz := zipball_events_spec read 0 env.zip u o opts
  unfold downloadGithubFolderBody
  repeat' first
  | (exact bodyLeaf2)
  | (exact bodyLeaf3)
  | (exact bodyLeafFallback hz)
  | (exact bodyLeafDirect hz)
  | (exact bodyLeafBatchErr
      ((runFetchUnits_events_spec read env.fileEnv u.path _ opts.flatten_structure _ _ 0 0 0).1)
      (fun e he =>
        ⟨((runFetchUnits_events_spec read env.fileEnv u.path _ opts.flatten_structure _ _ 0 0 0).2 e he).2.1,
         ((runFetchUnits_events_spec read env.fileEnv u.path _ opts.flatten_structure _ _ 0 0 0).2 e he).2.2⟩))
  | (exact bodyLeafBatchOk
      ((runFetchUnits_events_spec read env.fileEnv u.path _ opts.flatten_structure _ _ 0 0 0).1)
      (fun e he =>
        ⟨((runFetchUnits_events_spec read env.fileEnv u.path _ opts.flatten_structure _ _ 0 0 0).2 e he).2.1,
         ((runFetchUnits_events_spec read env.fileEnv u.path _ opts.flatten_structure _ _ 0 0 0).2 e he).2.2⟩))
  | split
  | dsimp only

/-- C8 counterexample.  A run whose listing fails rate-limited terminates
with the error after emitting only the 0-percent and 5-percent events: its
event sequence is non-empty yet contains no percent-100 event at all, so
it does not end with a percent-100 `complete` event as the claim demands
of every run. -/
theorem claim8_counterexample :
    (download_github_folder
        ⟨.resp 403 (some "0") (.parseErr ""), fun _ => ⟨none, .error "", .error "", none⟩, none,
          ⟨.error "net", none, none, 0, [], none, none, [], fun _ => none, none⟩⟩
        (fun _ => false) false ⟨"o", "r", "b", "docs"⟩ "/out"
        ⟨true, false, false⟩).events.countP (fun e => e.percent == 100) = 0 ∧
    (download_github_folder
        ⟨.resp 403 (some "0") (.parseErr ""), fun _ => ⟨none, .error "", .error "", none⟩, none,
          ⟨.error "net", none, none, 0, [], none, none, [], fun _ => none, none⟩⟩
        (fun _ => false) false ⟨"o", "r", "b", "docs"⟩ "/out"
        ⟨true, false, false⟩).events ≠ [] ∧
    (download_github_folder
        ⟨.resp 403 (some "0") (.parseErr ""), fun _ => ⟨none, .error "", .error "", none⟩, none,
          ⟨.error "net", none, none, 0, [], none, none, [], fun _ => none, none⟩⟩
        (fun _ => false) false ⟨"o", "r", "b", "docs"⟩ "/out"
        ⟨true, false, false⟩).result = .error rateLimitMsg := by decide

/-- C8 (amended).  For every run of either strategy, fallback included,
the emitted percent sequence is non-decreasing and never exceeds 100; a
run that returns a result ends with exactly one percent-100 event of
stage `complete`; a run that returns an error emits no percent-100 event
at all. -/
theorem claim8_theorem (env : RunEnv) (sched : Nat → Bool) (init : Bool)
    (urlInfo : GitHubUrlInfo) (outputPath : String) (options : GitDownloadOptions) :
    List.Chain' (fun a b : GitDownloadProgress => a.percent ≤ b.percent)
      (download_github_folder env sched init urlInfo outputPath options).events ∧
    (∀ e ∈ (download_github_folder env sched init urlInfo outputPath options).events,
      e.percent ≤ 100) ∧
    (∀ r, (download_github_folder env sched init urlInfo outputPath options).result = .ok r →
      (∃ ev, (download_github_folder env sched init urlInfo outputPath options).events.getLast? =
          some ev ∧ ev.percent = 100 ∧ ev.stage = "complete") ∧
      (download_github_folder env sched init urlInfo outputPath options).events.countP
        (fun e => e.percent == 100) = 1) ∧
    (∀ m, (download_github_folder env sched init urlInfo outputPath options).result = .error m →
      (download_github_folder env sched init urlInfo outputPath options).events.countP
        (fun e => e.percent == 100) = 0) :=
  body_events_spec env (flagAtPoll false sched) urlInfo outputPath options

/-- Witness for C8: a successful archive run of a one-file repository ends
with exactly one percent-100 `complete` event. -/
theorem claim8_witness :
    (download_github_folder
        ⟨.netErr "unused", fun _ => ⟨none, .error "", .error "", none⟩, none,
          ⟨.ok 200, none, none, 0, [], none, none, [⟨"r-sha/a.txt", 4⟩], fun _ => none, none⟩⟩
        (fun _ => false) false ⟨"o", "r", "b", ""⟩ "/out" ⟨true, false, false⟩).result =
      .ok ⟨true, 1, 4, "/out"⟩ ∧
    (∃ ev, (download_github_folder
        ⟨.netErr "unused", fun _ => ⟨none, .error "", .error "", none⟩, none,
          ⟨.ok 200, none, none, 0, [], none, none, [⟨"r-sha/a.txt", 4⟩], fun _ => none, none⟩⟩
        (fun _ => false) false ⟨"o", "r", "b", ""⟩ "/out"
        ⟨true, false, false⟩).events.getLast? = some ev ∧
      ev.percent = 100 ∧ ev.stage = "complete") ∧
    (download_github_folder
        ⟨.netErr "unused", fun _ => ⟨none, .error "", .error "", none⟩, none,
          ⟨.ok 200, none, none, 0, [], none, none, [⟨"r-sha/a.txt", 4⟩], fun _ => none, none⟩⟩
        (fun _ => false) false ⟨"o", "r", "b", ""⟩ "/out"
        ⟨true, false, false⟩).events.countP (fun e => e.percent == 100) = 1 := by
  have h := claim8_theorem
    ⟨.netErr "unused", fun _ => ⟨none, .error "", .error "", none⟩, none,
      ⟨.ok 200, none, none, 0, [], none, none, [⟨"r-sha/a.txt", 4⟩], fun _ => none, none⟩⟩
    (fun _ => false) false ⟨"o", "r", "b", ""⟩ "/out" ⟨true, false, false⟩
  have hres : (download_github_folder
      ⟨.netErr "unused", fun _ => ⟨none, .error "", .error "", none⟩, none,
        ⟨.ok 200, none, none, 0, [], none, none, [⟨"r-sha/a.txt", 4⟩], fun _ => none, none⟩⟩
      (fun _ => false) false ⟨"o", "r", "b", ""⟩ "/out" ⟨true, false, false⟩).result =
      .ok ⟨true, 1, 4, "/out"⟩ := by decide
  exact ⟨hres, (h.2.2.1 _ hres).1, (h.2.2.1 _ hres).2⟩
